import Mathlib

/-!
Verification of the mena-signal ingestion/extraction/analysis pipeline.

The definitions below are a shallow embedding of the Python code in
`backend/app/services/ingestion.py` and `backend/app/services/analysis.py`.
Strings are Lean strings (lists of characters); Python's ASCII-range string
operations (`lower`, `strip`, `split`) are embedded directly; the regular
expressions used by the extraction heuristics are embedded as dedicated
matching functions that follow the exact patterns from the source.
-/

set_option maxHeartbeats 2000000

namespace MenaSignal

/-! ### Character and string helpers (Python semantics, ASCII range) -/

/-- Python `str.lower()` on an ASCII character. -/
def lowerChar (c : Char) : Char :=
  if 65 ≤ c.toNat ∧ c.toNat ≤ 90 then Char.ofNat (c.toNat + 32) else c

/-- Python `str.lower()` on a string (ASCII range). -/
def lowerStr (s : String) : String := ⟨s.data.map lowerChar⟩

/-- Does the second list start with the first one? -/
def listStartsWith : List Char → List Char → Bool
  | [], _ => true
  | x :: xs, ys =>
    match ys with
    | [] => false
    | y :: yt => x == y && listStartsWith xs yt

/-- Python `needle in hay` substring containment on character lists. -/
def containsSub : List Char → List Char → Bool
  | needle, [] => listStartsWith needle []
  | needle, c :: t => listStartsWith needle (c :: t) || containsSub needle t

/-- Python `needle in hay` on strings. -/
def strContains (needle hay : String) : Bool := containsSub needle.data hay.data

theorem listStartsWith_iff (n h : List Char) :
    listStartsWith n h = true ↔ ∃ q, h = n ++ q := by
  induction n generalizing h with
  | nil => simp [listStartsWith]
  | cons a as ih =>
    cases h with
    | nil => simp [listStartsWith]
    | cons b bs =>
      simp only [listStartsWith, Bool.and_eq_true, beq_iff_eq, ih, List.cons_append,
        List.cons.injEq]
      constructor
      · rintro ⟨rfl, q, rfl⟩
        exact ⟨q, rfl, rfl⟩
      · rintro ⟨q, rfl, rfl⟩
        exact ⟨rfl, q, rfl⟩

theorem containsSub_iff (n h : List Char) :
    containsSub n h = true ↔ ∃ p q, h = p ++ n ++ q := by
  induction h with
  | nil =>
    simp only [containsSub, listStartsWith_iff]
    constructor
    · rintro ⟨q, hq⟩
      exact ⟨[], q, by simpa using hq⟩
    · rintro ⟨p, q, hpq⟩
      exact ⟨q, by
        rcases List.append_eq_nil.mp (List.append_eq_nil.mp hpq.symm).1 with ⟨h1, h2⟩
        simp [h2, (List.append_eq_nil.mp hpq.symm).2]⟩
  | cons c t ih =>
    simp only [containsSub, Bool.or_eq_true, listStartsWith_iff, ih]
    constructor
    · rintro (⟨q, hq⟩ | ⟨p, q, rfl⟩)
      · exact ⟨[], q, by simpa using hq⟩
      · exact ⟨c :: p, q, rfl⟩
    · rintro ⟨p, q, hpq⟩
      cases p with
      | nil => exact Or.inl ⟨q, by simpa using hpq⟩
      | cons x xs =>
        refine Or.inr ⟨xs, q, ?_⟩
        have := hpq
        simp only [List.cons_append, List.cons.injEq] at this
        exact this.2

/-- `needle` occurs case-insensitively as a substring of `text`
(occurrence in the lower-cased text). -/
def occursIn (needle text : String) : Prop :=
  ∃ p q : List Char, (lowerStr text).data = p ++ needle.data ++ q

theorem strContains_lower_iff (needle text : String) :
    strContains needle (lowerStr text) = true ↔ occursIn needle text := by
  unfold strContains occursIn
  exact containsSub_iff _ _

/-! ### Item classification (`determine_item_type`) -/

/-- `ItemType` enum from `models.py`. -/
inductive ItemType where
  | FUNDING
  | COMPANY
deriving DecidableEq, Repr

/-- The fixed funding-keyword list of `determine_item_type`. -/
def funding_keywords : List String :=
  ["raise", "raised", "funding", "series", "seed", "investment",
   "million", "billion", "$", "valuation", "round", "venture",
   "backed", "investor", "capital", "led by"]

/-- Python truthiness plus containment check:
`if category and 'funding' in category.lower()`. -/
def categoryIsFunding : Option String → Bool
  | none => false
  | some c => !(c == "") && strContains "funding" (lowerStr c)

/-- Embedding of `determine_item_type` from `ingestion.py`. -/
def determine_item_type (title summary : String) (category : Option String) : ItemType :=
  let title_lower := lowerStr title
  let summary_lower := lowerStr summary
  if funding_keywords.any fun k =>
      strContains k title_lower || strContains k summary_lower then
    ItemType.FUNDING
  else if categoryIsFunding category then
    ItemType.FUNDING
  else
    ItemType.COMPANY

theorem occursIn_empty_false (needle : String) (hn : needle.data ≠ []) :
    ¬ occursIn needle "" := by
  rintro ⟨p, q, hpq⟩
  have : ([] : List Char) = p ++ needle.data ++ q := hpq
  rcases List.append_eq_nil.mp (List.append_eq_nil.mp this.symm).1 with ⟨-, h2⟩
  exact hn h2

theorem categoryIsFunding_iff (c : Option String) :
    categoryIsFunding c = true ↔ ∃ cat, c = some cat ∧ occursIn "funding" cat := by
  cases c with
  | none => simp [categoryIsFunding]
  | some cat =>
    simp only [categoryIsFunding, Bool.and_eq_true, Bool.not_eq_true', beq_eq_false_iff_ne,
      ne_eq, strContains_lower_iff, Option.some.injEq]
    constructor
    · rintro ⟨-, h⟩
      exact ⟨cat, rfl, h⟩
    · rintro ⟨cat2, rfl, h⟩
      refine ⟨?_, h⟩
      rintro rfl
      exact occursIn_empty_false "funding" (by decide) h

/-- C6: `determine_item_type` returns FUNDING exactly when a funding keyword
occurs case-insensitively in the title or the summary, or (failing that) the
category hint contains "funding"; otherwise COMPANY.  The three concrete
examples from the spec evaluate as stated. -/
theorem c6_determine_item_type :
    (∀ (t s : String) (c : Option String),
      determine_item_type t s c = ItemType.FUNDING ↔
        ((∃ kw ∈ funding_keywords, occursIn kw t ∨ occursIn kw s) ∨
          (∃ cat, c = some cat ∧ occursIn "funding" cat))) ∧
    determine_item_type "Company raises $10M Series A" "" none = ItemType.FUNDING ∧
    determine_item_type "New AI Assistant Launch" "" none = ItemType.COMPANY ∧
    determine_item_type "X" "Y" (some "funding-news") = ItemType.FUNDING := by
  refine ⟨?_, by decide, by decide, by decide⟩
  intro t s c
  simp only [determine_item_type]
  by_cases hkw : (funding_keywords.any fun k =>
      strContains k (lowerStr t) || strContains k (lowerStr s)) = true
  · rw [if_pos hkw]
    refine iff_of_true rfl (Or.inl ?_)
    rcases List.any_eq_true.mp hkw with ⟨kw, hmem, hor⟩
    simp only [Bool.or_eq_true] at hor
    rcases hor with h | h
    · exact ⟨kw, hmem, Or.inl ((strContains_lower_iff kw t).mp h)⟩
    · exact ⟨kw, hmem, Or.inr ((strContains_lower_iff kw s).mp h)⟩
  · rw [if_neg hkw]
    have hno : ¬ ∃ kw ∈ funding_keywords, occursIn kw t ∨ occursIn kw s := by
      rintro ⟨kw, hmem, hor⟩
      apply hkw
      refine List.any_eq_true.mpr ⟨kw, hmem, ?_⟩
      simp only [Bool.or_eq_true]
      rcases hor with h | h
      · exact Or.inl ((strContains_lower_iff kw t).mpr h)
      · exact Or.inr ((strContains_lower_iff kw s).mpr h)
    by_cases hc : categoryIsFunding c = true
    · rw [if_pos hc]
      exact iff_of_true rfl (Or.inr ((categoryIsFunding_iff c).mp hc))
    · rw [if_neg hc]
      refine iff_of_false (by simp) ?_
      rintro (h | h)
      · exact hno h
      · exact hc ((categoryIsFunding_iff c).mpr h)

/-! ### Funding-detail extraction (`extract_funding_details`)

The Python function runs `re.search` with a fixed list of patterns over the
lower-cased `f"{title} {summary}"`.  Each pattern is embedded as a dedicated
matcher.  For these particular patterns greedy/lazy backtracking is
irrelevant: every quantified sub-pattern (`\s+`, `\s*`, `\d+`) is followed by
a token that cannot start with a character of the quantified class, so the
maximal-munch reading used below coincides with Python's semantics. -/

/-- Python `\d` (ASCII). -/
def isDigitChar (c : Char) : Bool := 48 ≤ c.toNat && c.toNat ≤ 57

/-- Python `\s` (ASCII): space, tab, newline, carriage return, vertical tab,
form feed. -/
def isPyWs (c : Char) : Bool :=
  c.toNat == 32 || c.toNat == 9 || c.toNat == 10 || c.toNat == 13 ||
    c.toNat == 11 || c.toNat == 12

/-- Python word character, for `\b` (ASCII). -/
def isWordChar (c : Char) : Bool :=
  (65 ≤ c.toNat && c.toNat ≤ 90) || (97 ≤ c.toNat && c.toNat ≤ 122) ||
    isDigitChar c || c.toNat == 95

/-- `[a-z]`. -/
def isLowerAZ (c : Char) : Bool := 97 ≤ c.toNat && c.toNat ≤ 122

/-- Match `series\s+([a-z])` at the head of `l`, returning the captured
letter.  (The variant pattern `series\s+([a-z])\d?` in the source matches at
exactly the same places with the same capture, since the trailing `\d?` is
optional.) -/
def matchSeriesAt (l : List Char) : Option Char :=
  if listStartsWith ("series".data) l then
    if ((l.drop 6).takeWhile isPyWs).isEmpty then none
    else
      match (l.drop 6).dropWhile isPyWs with
      | [] => none
      | c :: _ => if isLowerAZ c then some c else none
  else none

/-- `re.search` of `series\s+([a-z])`: leftmost match, captured letter. -/
def searchSeries : List Char → Option Char
  | [] => none
  | c :: t =>
    match matchSeriesAt (c :: t) with
    | some r => some r
    | none => searchSeries t

/-- Match `w1\s+w2` at the head of `l`. -/
def matchTwoWordsAt (w1 w2 l : List Char) : Bool :=
  listStartsWith w1 l &&
    (let rest := l.drop w1.length
     let ws := rest.takeWhile isPyWs
     !ws.isEmpty && listStartsWith w2 (rest.dropWhile isPyWs))

/-- `re.search` of `w1\s+w2` (match existence only). -/
def searchTwoWords (w1 w2 : List Char) : List Char → Bool
  | [] => matchTwoWordsAt w1 w2 []
  | c :: t => matchTwoWordsAt w1 w2 (c :: t) || searchTwoWords w1 w2 t

/-- Embedding of the `round_patterns` chain of `extract_funding_details`:
first matching rule wins.  The source order is: `series\s+([a-z])`,
`seed\s+round`, `pre-seed`, `seed`, `series\s+([a-z])\d?`, `growth\s+round`,
`bridge\s+round`. -/
def extract_round_type (text : List Char) : Option String :=
  match searchSeries text with
  | some c => some ("series_".push c)
  | none =>
    if searchTwoWords ("seed".data) ("round".data) text then some "seed"
    else if containsSub ("pre-seed".data) text then some "pre_seed"
    else if containsSub ("seed".data) text then some "seed"
    else
      match searchSeries text with   -- pattern 5 matches exactly when pattern 1 does
      | some c => some ("series_".push c)
      | none =>
        if searchTwoWords ("growth".data) ("round".data) text then some "growth"
        else if searchTwoWords ("bridge".data) ("round".data) text then some "bridge"
        else none

/-- Value of digit lists: integer part `ds`, fractional part `fs`, as the
exact rational `float(ds + "." + fs)` denotes for decimal inputs. -/
def digitsToNat : List Char → Nat → Nat
  | [], acc => acc
  | c :: t, acc => digitsToNat t (acc * 10 + (c.toNat - 48))

def decValue (ds fs : List Char) : ℚ :=
  (digitsToNat ds 0 : ℚ) + (digitsToNat fs 0 : ℚ) / (10 : ℚ) ^ fs.length

/-- Match `\d+(?:\.\d+)?` at the head of `l`: integer digits, fractional
digits (possibly empty), and the rest of the input. -/
def matchNumAt (l : List Char) : Option (List Char × List Char × List Char) :=
  let ds := l.takeWhile isDigitChar
  if ds.isEmpty then none
  else
    let rest := l.drop ds.length
    match rest with
    | '.' :: r2 =>
      let fs := r2.takeWhile isDigitChar
      if fs.isEmpty then some (ds, [], rest)
      else some (ds, fs, r2.drop fs.length)
    | _ => some (ds, [], rest)

/-- Is there a `\b` word boundary before `l` (the previous character being a
word character)? -/
def wordBoundary : List Char → Bool
  | [] => true
  | c :: _ => !isWordChar c

/-- Match `\s*(?:million|m\b)` at the head of `l`, returning the consumed
length. -/
def matchMTail (l : List Char) : Option Nat :=
  let ws := (l.takeWhile isPyWs).length
  let r := l.drop ws
  if listStartsWith ("million".data) r then some (ws + 7)
  else
    match r with
    | 'm' :: rest => if wordBoundary rest then some (ws + 1) else none
    | _ => none

/-- Match `\s*(?:billion|b\b)` at the head of `l`, returning the consumed
length. -/
def matchBTail (l : List Char) : Option Nat :=
  let ws := (l.takeWhile isPyWs).length
  let r := l.drop ws
  if listStartsWith ("billion".data) r then some (ws + 7)
  else
    match r with
    | 'b' :: rest => if wordBoundary rest then some (ws + 1) else none
    | _ => none

/-- Match `\s*(?:dollars|\$)` at the head of `l`, returning the consumed
length. -/
def matchDollarTail (l : List Char) : Option Nat :=
  let ws := (l.takeWhile isPyWs).length
  let r := l.drop ws
  if listStartsWith ("dollars".data) r then some (ws + 7)
  else
    match r with
    | '$' :: _ => some (ws + 1)
    | _ => none

/-- Consumed length of the matched number `\d+(?:\.\d+)?`. -/
def numLen (ds fs : List Char) : Nat :=
  ds.length + (if fs.isEmpty then 0 else 1 + fs.length)

/-- Match `\$(\d+(?:\.\d+)?)\s*(?:million|m\b)` at the head of `l`:
captured digit lists and total consumed length. -/
def matchAmount1At : List Char → Option (List Char × List Char × Nat)
  | '$' :: r =>
    match matchNumAt r with
    | none => none
    | some (ds, fs, rest) =>
      match matchMTail rest with
      | none => none
      | some k => some (ds, fs, 1 + numLen ds fs + k)
  | _ => none

/-- Match `\$(\d+(?:\.\d+)?)\s*(?:billion|b\b)` at the head of `l`. -/
def matchAmount2At : List Char → Option (List Char × List Char × Nat)
  | '$' :: r =>
    match matchNumAt r with
    | none => none
    | some (ds, fs, rest) =>
      match matchBTail rest with
      | none => none
      | some k => some (ds, fs, 1 + numLen ds fs + k)
  | _ => none

/-- Match `(\d+(?:\.\d+)?)\s*(?:million|m)\s*(?:dollars|\$)` at the head of
`l`.  The alternation `million|m` tries `million` first and backtracks to
`m` when the tail fails, exactly as Python's engine does. -/
def matchAmount3At (l : List Char) : Option (List Char × List Char × Nat) :=
  match matchNumAt l with
  | none => none
  | some (ds, fs, rest) =>
    let ws := (rest.takeWhile isPyWs).length
    let r := rest.drop ws
    let viaM : Option Nat :=
      match r with
      | 'm' :: r2 => (matchDollarTail r2).map (fun k => 1 + k)
      | _ => none
    let unit : Option Nat :=
      if listStartsWith ("million".data) r then
        match matchDollarTail (r.drop 7) with
        | some k => some (7 + k)
        | none => viaM
      else viaM
    match unit with
    | none => none
    | some n => some (ds, fs, numLen ds fs + ws + n)

/-- `re.search` scan: try the matcher at every position, leftmost match
wins; returns captured digits and the match's start/end offsets. -/
def searchAmount (f : List Char → Option (List Char × List Char × Nat)) :
    List Char → Nat → Option (List Char × List Char × Nat × Nat)
  | [], i =>
    match f [] with
    | some (ds, fs, n) => some (ds, fs, i, i + n)
    | none => none
  | c :: t, i =>
    match f (c :: t) with
    | some (ds, fs, n) => some (ds, fs, i, i + n)
    | none => searchAmount f t (i + 1)

/-- The first matching amount pattern, in source order. -/
def firstAmountMatch (text : List Char) : Option (List Char × List Char × Nat × Nat) :=
  match searchAmount matchAmount1At text 0 with
  | some r => some r
  | none =>
    match searchAmount matchAmount2At text 0 with
    | some r => some r
    | none => searchAmount matchAmount3At text 0

/-- The `billion`-multiplier test of the source: `'billion' in
text[start:end+10].lower() or 'b' in text[start:end+3].lower()`. -/
def billionWindow (text : List Char) (s e : Nat) : Bool :=
  containsSub ("billion".data) (((text.drop s).take (e + 10 - s)).map lowerChar) ||
    containsSub ['b'] (((text.drop s).take (e + 3 - s)).map lowerChar)

/-- `amount = float(group)`, `* 1000` when the window test fires, then
`* 1_000_000`. -/
def amountValue (text : List Char) (ds fs : List Char) (s e : Nat) : ℚ :=
  (if billionWindow text s e then decValue ds fs * 1000 else decValue ds fs) * 1000000

/-- The amount-extraction part of `extract_funding_details`. -/
def extract_amount (text : List Char) : Option ℚ :=
  match firstAmountMatch text with
  | some (ds, fs, s, e) => some (amountValue text ds fs s e)
  | none => none

/-- Result record of `extract_funding_details` (`details` dict). -/
structure FundingOut where
  round_type : Option String
  amount_usd : Option ℚ
  investors : List String
deriving Repr, DecidableEq

/-- Embedding of `extract_funding_details` from `ingestion.py`. -/
def extract_funding_details (title summary : String) : FundingOut :=
  let text := (lowerStr (title ++ " " ++ summary)).data
  { round_type := extract_round_type text
    amount_usd := extract_amount text
    investors := [] }

/-! ### Specification-level occurrence predicates and matcher correctness -/

/-- The lower-cased text `f"{title} {summary}".lower()` scanned by
`extract_funding_details`. -/
def textOf (title summary : String) : List Char :=
  (lowerStr (title ++ " " ++ summary)).data

/-- `w` occurs as a (plain) substring of `text`. -/
def SubOcc (w text : List Char) : Prop := ∃ p q, text = p ++ w ++ q

/-- The pattern `series\s+([a-z])` matches somewhere in `text`. -/
def SeriesOcc (text : List Char) : Prop :=
  ∃ p ws c q, text = p ++ ("series".data) ++ ws ++ c :: q ∧ ws ≠ [] ∧
    (∀ x ∈ ws, isPyWs x = true) ∧ isLowerAZ c = true

/-- The pattern `w1\s+w2` matches somewhere in `text`. -/
def TwoWordOcc (w1 w2 text : List Char) : Prop :=
  ∃ p ws q, text = p ++ w1 ++ ws ++ w2 ++ q ∧ ws ≠ [] ∧
    ∀ x ∈ ws, isPyWs x = true

theorem containsSub_iff_SubOcc (w text : List Char) :
    containsSub w text = true ↔ SubOcc w text := containsSub_iff w text

theorem isLowerAZ_not_ws {c : Char} (h : isLowerAZ c = true) : isPyWs c = false := by
  simp only [isLowerAZ, Bool.and_eq_true, decide_eq_true_eq] at h
  simp only [isPyWs, Bool.or_eq_false_iff, beq_eq_false_iff_ne, ne_eq]
  omega

theorem takeWhile_app {α : Type} (P : α → Bool) (ws : List α) (c : α) (q : List α)
    (h1 : ∀ x ∈ ws, P x = true) (h2 : P c = false) :
    (ws ++ c :: q).takeWhile P = ws := by
  induction ws with
  | nil => simp [List.takeWhile_cons, h2]
  | cons a as ih =>
    have ha : P a = true := h1 a (by simp)
    simp only [List.cons_append, List.takeWhile_cons, ha, if_true]
    rw [ih fun x hx => h1 x (by simp [hx])]

theorem dropWhile_app {α : Type} (P : α → Bool) (ws : List α) (c : α) (q : List α)
    (h1 : ∀ x ∈ ws, P x = true) (h2 : P c = false) :
    (ws ++ c :: q).dropWhile P = c :: q := by
  induction ws with
  | nil => simp [List.dropWhile_cons, h2]
  | cons a as ih =>
    have ha : P a = true := h1 a (by simp)
    simp only [List.cons_append, List.dropWhile_cons, ha, if_true]
    exact ih fun x hx => h1 x (by simp [hx])

theorem takeWhile_all {α : Type} (P : α → Bool) (l : List α)
    (h : ∀ x ∈ l, P x = true) : l.takeWhile P = l := by
  induction l with
  | nil => rfl
  | cons a as ih =>
    rw [List.takeWhile_cons, if_pos (h a (by simp))]
    rw [ih fun x hx => h x (by simp [hx])]

theorem mem_takeWhile_pred {α : Type} {P : α → Bool} {l : List α} {x : α}
    (h : x ∈ l.takeWhile P) : P x = true := by
  induction l with
  | nil => simp [List.takeWhile] at h
  | cons a as ih =>
    rw [List.takeWhile_cons] at h
    by_cases ha : P a = true
    · rw [if_pos ha] at h
      rcases List.mem_cons.mp h with rfl | h2
      · exact ha
      · exact ih h2
    · rw [if_neg ha] at h
      simp at h

theorem length_series_data : ("series".data).length = 6 := rfl

theorem matchSeriesAt_isSome_iff (l : List Char) :
    (matchSeriesAt l).isSome = true ↔
      ∃ ws c q, l = ("series".data) ++ ws ++ c :: q ∧ ws ≠ [] ∧
        (∀ x ∈ ws, isPyWs x = true) ∧ isLowerAZ c = true := by
  constructor
  · intro h
    unfold matchSeriesAt at h
    by_cases hs : listStartsWith ("series".data) l = true
    · rw [if_pos hs] at h
      rcases (listStartsWith_iff _ _).mp hs with ⟨rest, rfl⟩
      have hdrop : (("series".data) ++ rest).drop 6 = rest := by
        rw [← length_series_data]
        exact List.drop_left _ _
      rw [hdrop] at h
      by_cases hemp : (rest.takeWhile isPyWs).isEmpty = true
      · rw [if_pos hemp] at h; simp at h
      · rw [if_neg hemp] at h
        rcases hdw : rest.dropWhile isPyWs with _ | ⟨c, r2⟩
        · rw [hdw] at h; simp at h
        · rw [hdw] at h
          dsimp only at h
          by_cases hlz : isLowerAZ c = true
          · refine ⟨rest.takeWhile isPyWs, c, r2, ?_, ?_, ?_, hlz⟩
            · conv_lhs => rw [← List.takeWhile_append_dropWhile (p := isPyWs) (l := rest)]
              rw [hdw]
              simp
            · intro hnil
              rw [hnil] at hemp
              simp at hemp
            · intro x hx; exact mem_takeWhile_pred hx
          · rw [if_neg hlz] at h; simp at h
    · rw [if_neg hs] at h; simp at h
  · rintro ⟨ws, c, q, rfl, hne, hws, hlz⟩
    have hs : listStartsWith ("series".data) (("series".data) ++ ws ++ c :: q) = true :=
      (listStartsWith_iff _ _).mpr ⟨ws ++ c :: q, by simp⟩
    unfold matchSeriesAt
    rw [if_pos hs]
    have hdrop : ((("series".data) ++ ws ++ c :: q)).drop 6 = ws ++ c :: q := by
      rw [List.append_assoc, ← length_series_data]
      exact List.drop_left _ _
    rw [hdrop]
    rw [takeWhile_app isPyWs ws c q hws (isLowerAZ_not_ws hlz),
      dropWhile_app isPyWs ws c q hws (isLowerAZ_not_ws hlz)]
    rw [if_neg (by simpa [List.isEmpty_iff] using hne)]
    dsimp only
    rw [if_pos hlz]
    rfl

theorem searchSeries_isSome_iff (text : List Char) :
    (searchSeries text).isSome = true ↔ SeriesOcc text := by
  induction text with
  | nil =>
    simp only [searchSeries, Option.isSome_none, Bool.false_eq_true, false_iff]
    rintro ⟨p, ws, c, q, h, -, -, -⟩
    have := congrArg List.length h
    simp [List.length_append] at this
    omega
  | cons x t ih =>
    rcases hm : matchSeriesAt (x :: t) with _ | c
    · have hlhs : searchSeries (x :: t) = searchSeries t := by
        simp only [searchSeries, hm]
      rw [hlhs, ih]
      constructor
      · rintro ⟨p, ws, c, q, he, hne, hws, hlz⟩
        exact ⟨x :: p, ws, c, q, by rw [he]; simp, hne, hws, hlz⟩
      · rintro ⟨p, ws, c, q, he, hne, hws, hlz⟩
        cases p with
        | nil =>
          exfalso
          have : (matchSeriesAt (x :: t)).isSome = true :=
            (matchSeriesAt_isSome_iff _).mpr ⟨ws, c, q, by simpa using he, hne, hws, hlz⟩
          rw [hm] at this; simp at this
        | cons y p2 =>
          have he2 : x :: t = y :: (p2 ++ ("series".data) ++ ws ++ c :: q) := by
            rw [he]; simp
          have ht : t = p2 ++ ("series".data) ++ ws ++ c :: q :=
            (List.cons.inj he2).2
          exact ⟨p2, ws, c, q, ht, hne, hws, hlz⟩
    · have hlhs : searchSeries (x :: t) = some c := by
        simp only [searchSeries, hm]
      refine iff_of_true (by rw [hlhs]; rfl) ?_
      have : (matchSeriesAt (x :: t)).isSome = true := by rw [hm]; rfl
      rcases (matchSeriesAt_isSome_iff _).mp this with ⟨ws, c2, q, he, hne, hws, hlz⟩
      exact ⟨[], ws, c2, q, by simpa using he, hne, hws, hlz⟩

theorem matchTwoWordsAt_iff (w1 w2 l : List Char) (c0 : Char) (cs : List Char)
    (hw2 : w2 = c0 :: cs) (hc0 : isPyWs c0 = false) :
    matchTwoWordsAt w1 w2 l = true ↔
      ∃ ws q, l = w1 ++ ws ++ w2 ++ q ∧ ws ≠ [] ∧ ∀ x ∈ ws, isPyWs x = true := by
  constructor
  · intro h
    unfold matchTwoWordsAt at h
    simp only [Bool.and_eq_true, Bool.not_eq_true', List.isEmpty_eq_false] at h
    obtain ⟨hs, hne, hs2⟩ := h
    rcases (listStartsWith_iff _ _).mp hs with ⟨rest, rfl⟩
    rw [List.drop_left] at hne hs2
    rcases (listStartsWith_iff _ _).mp hs2 with ⟨q, hq⟩
    refine ⟨rest.takeWhile isPyWs, q, ?_, hne, fun x hx => mem_takeWhile_pred hx⟩
    conv_lhs => rw [← List.takeWhile_append_dropWhile (p := isPyWs) (l := rest)]
    rw [hq]
    simp
  · rintro ⟨ws, q, rfl, hne, hws⟩
    unfold matchTwoWordsAt
    simp only [Bool.and_eq_true, Bool.not_eq_true', List.isEmpty_eq_false]
    have hassoc : w1 ++ ws ++ w2 ++ q = w1 ++ (ws ++ w2 ++ q) := by simp
    refine ⟨?_, ?_, ?_⟩
    · exact (listStartsWith_iff _ _).mpr ⟨ws ++ w2 ++ q, by simp⟩
    · rw [hassoc, List.drop_left]
      rw [hw2]
      have : ws ++ (c0 :: cs) ++ q = ws ++ c0 :: (cs ++ q) := by simp
      rw [this, takeWhile_app isPyWs ws c0 (cs ++ q) hws hc0]
      exact hne
    · rw [hassoc, List.drop_left, hw2]
      have : ws ++ (c0 :: cs) ++ q = ws ++ c0 :: (cs ++ q) := by simp
      rw [this, dropWhile_app isPyWs ws c0 (cs ++ q) hws hc0]
      exact (listStartsWith_iff _ _).mpr ⟨q, by simp⟩

theorem searchTwoWords_iff (w1 w2 text : List Char) (c0 : Char) (cs : List Char)
    (hw2 : w2 = c0 :: cs) (hc0 : isPyWs c0 = false) :
    searchTwoWords w1 w2 text = true ↔ TwoWordOcc w1 w2 text := by
  induction text with
  | nil =>
    simp only [searchTwoWords]
    constructor
    · intro h
      rcases (matchTwoWordsAt_iff w1 w2 [] c0 cs hw2 hc0).mp h with ⟨ws, q, he, hne, -⟩
      exfalso
      have hlen := congrArg List.length he
      rw [hw2] at hlen
      simp [List.length_append] at hlen
      omega
    · rintro ⟨p, ws, q, he, hne, hws⟩
      exfalso
      have hlen := congrArg List.length he
      rw [hw2] at hlen
      simp [List.length_append] at hlen
      omega
  | cons x t ih =>
    simp only [searchTwoWords, Bool.or_eq_true, ih]
    constructor
    · rintro (h | h)
      · rcases (matchTwoWordsAt_iff w1 w2 _ c0 cs hw2 hc0).mp h with ⟨ws, q, he, hne, hws⟩
        exact ⟨[], ws, q, by simpa using he, hne, hws⟩
      · rcases h with ⟨p, ws, q, he, hne, hws⟩
        exact ⟨x :: p, ws, q, by rw [he]; simp, hne, hws⟩
    · rintro ⟨p, ws, q, he, hne, hws⟩
      cases p with
      | nil =>
        exact Or.inl ((matchTwoWordsAt_iff w1 w2 _ c0 cs hw2 hc0).mpr
          ⟨ws, q, by simpa using he, hne, hws⟩)
      | cons y p2 =>
        have he2 : x :: t = y :: (p2 ++ w1 ++ ws ++ w2 ++ q) := by rw [he]; simp
        exact Or.inr ⟨p2, ws, q, (List.cons.inj he2).2, hne, hws⟩

theorem series_push_ne_of_length (c : Char) (s : String) (hs : s.data.length ≠ 8) :
    "series_".push c ≠ s := by
  intro h
  apply hs
  have h2 : (8 : Nat) = s.data.length := congrArg (fun t => t.data.length) h
  exact h2.symm

theorem series_push_ne_pre_seed (c : Char) : "series_".push c ≠ "pre_seed" := by
  intro h
  have h2 : some 's' = some 'p' := congrArg (fun t => t.data.head?) h
  exact absurd (Option.some.inj h2) (by decide)

theorem no_series_push_eq (s : String) (hs : ∀ c : Char, "series_".push c ≠ s) :
    ¬ ∃ c, some s = some ("series_".push c) := by
  rintro ⟨c, hc⟩
  exact hs c (Option.some.inj hc).symm

/-- Full case characterization of the round-type rule chain: which spec-level
pattern occurrences produce which output, with the source's first-match-wins
priority.  Note the `seed\s+round ⇒ "seed"` rule sits BEFORE the `pre-seed`
rule. -/
theorem extract_round_type_spec (text : List Char) :
    ((∃ c, extract_round_type text = some ("series_".push c)) ↔ SeriesOcc text) ∧
    (extract_round_type text = some "pre_seed" ↔
      (¬ SeriesOcc text ∧ ¬ TwoWordOcc ("seed".data) ("round".data) text ∧
        SubOcc ("pre-seed".data) text)) ∧
    (extract_round_type text = some "seed" ↔
      (¬ SeriesOcc text ∧ (TwoWordOcc ("seed".data) ("round".data) text ∨
        (¬ SubOcc ("pre-seed".data) text ∧ SubOcc ("seed".data) text)))) ∧
    (extract_round_type text = some "growth" ↔
      (¬ SeriesOcc text ∧ ¬ TwoWordOcc ("seed".data) ("round".data) text ∧
        ¬ SubOcc ("pre-seed".data) text ∧ ¬ SubOcc ("seed".data) text ∧
        TwoWordOcc ("growth".data) ("round".data) text)) ∧
    (extract_round_type text = some "bridge" ↔
      (¬ SeriesOcc text ∧ ¬ TwoWordOcc ("seed".data) ("round".data) text ∧
        ¬ SubOcc ("pre-seed".data) text ∧ ¬ SubOcc ("seed".data) text ∧
        ¬ TwoWordOcc ("growth".data) ("round".data) text ∧
        TwoWordOcc ("bridge".data) ("round".data) text)) ∧
    (extract_round_type text = none ↔
      (¬ SeriesOcc text ∧ ¬ TwoWordOcc ("seed".data) ("round".data) text ∧
        ¬ SubOcc ("pre-seed".data) text ∧ ¬ SubOcc ("seed".data) text ∧
        ¬ TwoWordOcc ("growth".data) ("round".data) text ∧
        ¬ TwoWordOcc ("bridge".data) ("round".data) text)) := by
  have hWiff := searchTwoWords_iff ("seed".data) ("round".data) text 'r' ("ound".data)
    rfl rfl
  have hGiff := searchTwoWords_iff ("growth".data) ("round".data) text 'r' ("ound".data)
    rfl rfl
  have hBiff := searchTwoWords_iff ("bridge".data) ("round".data) text 'r' ("ound".data)
    rfl rfl
  rcases h1 : searchSeries text with _ | c
  · have hS : ¬ SeriesOcc text := by
      rw [← searchSeries_isSome_iff, h1]; simp
    by_cases h2 : searchTwoWords ("seed".data) ("round".data) text = true
    · have hW := hWiff.mp h2
      have hrt : extract_round_type text = some "seed" := by
        unfold extract_round_type
        rw [h1]
        dsimp only
        rw [if_pos h2]
      rw [hrt]
      refine ⟨?_, ?_, ?_, ?_, ?_, ?_⟩
      · refine iff_of_false (no_series_push_eq "seed" ?_) hS
        intro c
        exact series_push_ne_of_length c "seed" (by decide)
      · exact iff_of_false (by simp) (by rintro ⟨-, hnW, -⟩; exact hnW hW)
      · exact iff_of_true rfl ⟨hS, Or.inl hW⟩
      · exact iff_of_false (by simp) (by rintro ⟨-, hnW, -⟩; exact hnW hW)
      · exact iff_of_false (by simp) (by rintro ⟨-, hnW, -⟩; exact hnW hW)
      · exact iff_of_false (by simp) (by rintro ⟨-, hnW, -⟩; exact hnW hW)
    · have hnW : ¬ TwoWordOcc ("seed".data) ("round".data) text :=
        fun h => h2 (hWiff.mpr h)
      by_cases h3 : containsSub ("pre-seed".data) text = true
      · have hP := (containsSub_iff_SubOcc _ _).mp h3
        have hrt : extract_round_type text = some "pre_seed" := by
          unfold extract_round_type
          rw [h1]
          dsimp only
          rw [if_neg h2, if_pos h3]
        rw [hrt]
        refine ⟨?_, ?_, ?_, ?_, ?_, ?_⟩
        · exact iff_of_false (no_series_push_eq "pre_seed" series_push_ne_pre_seed) hS
        · exact iff_of_true rfl ⟨hS, hnW, hP⟩
        · refine iff_of_false (by simp) ?_
          rintro ⟨-, (hW | ⟨hnP, -⟩)⟩
          · exact hnW hW
          · exact hnP hP
        · exact iff_of_false (by simp) (by rintro ⟨-, -, hnP, -⟩; exact hnP hP)
        · exact iff_of_false (by simp) (by rintro ⟨-, -, hnP, -⟩; exact hnP hP)
        · exact iff_of_false (by simp) (by rintro ⟨-, -, hnP, -⟩; exact hnP hP)
      · have hnP : ¬ SubOcc ("pre-seed".data) text :=
          fun h => h3 ((containsSub_iff_SubOcc _ _).mpr h)
        by_cases h4 : containsSub ("seed".data) text = true
        · have hD := (containsSub_iff_SubOcc _ _).mp h4
          have hrt : extract_round_type text = some "seed" := by
            unfold extract_round_type
            rw [h1]
            dsimp only
            rw [if_neg h2, if_neg h3, if_pos h4]
          rw [hrt]
          refine ⟨?_, ?_, ?_, ?_, ?_, ?_⟩
          · refine iff_of_false (no_series_push_eq "seed" ?_) hS
            intro c
            exact series_push_ne_of_length c "seed" (by decide)
          · exact iff_of_false (by simp) (by rintro ⟨-, -, hP⟩; exact hnP hP)
          · exact iff_of_true rfl ⟨hS, Or.inr ⟨hnP, hD⟩⟩
          · exact iff_of_false (by simp) (by rintro ⟨-, -, -, hnD, -⟩; exact hnD hD)
          · exact iff_of_false (by simp) (by rintro ⟨-, -, -, hnD, -⟩; exact hnD hD)
          · exact iff_of_false (by simp) (by rintro ⟨-, -, -, hnD, -⟩; exact hnD hD)
        · have hnD : ¬ SubOcc ("seed".data) text :=
            fun h => h4 ((containsSub_iff_SubOcc _ _).mpr h)
          by_cases h5 : searchTwoWords ("growth".data) ("round".data) text = true
          · have hG := hGiff.mp h5
            have hrt : extract_round_type text = some "growth" := by
              unfold extract_round_type
              rw [h1]
              dsimp only
              rw [if_neg h2, if_neg h3, if_neg h4, if_pos h5]
            rw [hrt]
            refine ⟨?_, ?_, ?_, ?_, ?_, ?_⟩
            · refine iff_of_false (no_series_push_eq "growth" ?_) hS
              intro c
              exact series_push_ne_of_length c "growth" (by decide)
            · exact iff_of_false (by simp) (by rintro ⟨-, -, hP⟩; exact hnP hP)
            · refine iff_of_false (by simp) ?_
              rintro ⟨-, (hW | ⟨-, hD⟩)⟩
              · exact hnW hW
              · exact hnD hD
            · exact iff_of_true rfl ⟨hS, hnW, hnP, hnD, hG⟩
            · exact iff_of_false (by simp) (by rintro ⟨-, -, -, -, hnG, -⟩; exact hnG hG)
            · exact iff_of_false (by simp) (by rintro ⟨-, -, -, -, hnG, -⟩; exact hnG hG)
          · have hnG : ¬ TwoWordOcc ("growth".data) ("round".data) text :=
              fun h => h5 (hGiff.mpr h)
            by_cases h6 : searchTwoWords ("bridge".data) ("round".data) text = true
            · have hB := hBiff.mp h6
              have hrt : extract_round_type text = some "bridge" := by
                unfold extract_round_type
                rw [h1]
                dsimp only
                rw [if_neg h2, if_neg h3, if_neg h4, if_neg h5, if_pos h6]
              rw [hrt]
              refine ⟨?_, ?_, ?_, ?_, ?_, ?_⟩
              · refine iff_of_false (no_series_push_eq "bridge" ?_) hS
                intro c
                exact series_push_ne_of_length c "bridge" (by decide)
              · exact iff_of_false (by simp) (by rintro ⟨-, -, hP⟩; exact hnP hP)
              · refine iff_of_false (by simp) ?_
                rintro ⟨-, (hW | ⟨-, hD⟩)⟩
                · exact hnW hW
                · exact hnD hD
              · exact iff_of_false (by simp)
                  (by rintro ⟨-, -, -, -, hG⟩; exact hnG hG)
              · exact iff_of_true rfl ⟨hS, hnW, hnP, hnD, hnG, hB⟩
              · exact iff_of_false (by simp)
                  (by rintro ⟨-, -, -, -, -, hnB⟩; exact hnB hB)
            · have hnB : ¬ TwoWordOcc ("bridge".data) ("round".data) text :=
                fun h => h6 (hBiff.mpr h)
              have hrt : extract_round_type text = none := by
                unfold extract_round_type
                rw [h1]
                dsimp only
                rw [if_neg h2, if_neg h3, if_neg h4, if_neg h5, if_neg h6]
              rw [hrt]
              refine ⟨?_, ?_, ?_, ?_, ?_, ?_⟩
              · exact iff_of_false (by rintro ⟨c, hc⟩; simp at hc) hS
              · exact iff_of_false (by simp) (by rintro ⟨-, -, hP⟩; exact hnP hP)
              · refine iff_of_false (by simp) ?_
                rintro ⟨-, (hW | ⟨-, hD⟩)⟩
                · exact hnW hW
                · exact hnD hD
              · exact iff_of_false (by simp)
                  (by rintro ⟨-, -, -, -, hG⟩; exact hnG hG)
              · exact iff_of_false (by simp)
                  (by rintro ⟨-, -, -, -, -, hB⟩; exact hnB hB)
              · exact iff_of_true rfl ⟨hS, hnW, hnP, hnD, hnG, hnB⟩
  · have hS : SeriesOcc text := (searchSeries_isSome_iff text).mp (by rw [h1]; rfl)
    have hrt : extract_round_type text = some ("series_".push c) := by
      unfold extract_round_type
      rw [h1]
    rw [hrt]
    refine ⟨iff_of_true ⟨c, rfl⟩ hS, ?_, ?_, ?_, ?_, ?_⟩
    · exact iff_of_false
        (fun h => series_push_ne_pre_seed c (Option.some.inj h))
        (by rintro ⟨hnS, -⟩; exact hnS hS)
    · exact iff_of_false
        (fun h => series_push_ne_of_length c "seed" (by decide) (Option.some.inj h))
        (by rintro ⟨hnS, -⟩; exact hnS hS)
    · exact iff_of_false
        (fun h => series_push_ne_of_length c "growth" (by decide) (Option.some.inj h))
        (by rintro ⟨hnS, -⟩; exact hnS hS)
    · exact iff_of_false
        (fun h => series_push_ne_of_length c "bridge" (by decide) (Option.some.inj h))
        (by rintro ⟨hnS, -⟩; exact hnS hS)
    · exact iff_of_false (by simp) (by rintro ⟨hnS, -⟩; exact hnS hS)

/-- C2 counterexample: the text "pre-seed round" contains "pre-seed" and has
no `series <letter>` occurrence, yet `extract_funding_details` resolves its
round type to "seed" (the source's `seed\s+round` rule fires before the
`pre-seed` rule), not "pre_seed" as the claim requires. -/
theorem c2_counterexample :
    SubOcc ("pre-seed".data) (textOf "pre-seed round" "") ∧
    ¬ SeriesOcc (textOf "pre-seed round" "") ∧
    (extract_funding_details "pre-seed round" "").round_type = some "seed" ∧
    (extract_funding_details "pre-seed round" "").round_type ≠ some "pre_seed" := by
  refine ⟨⟨[], (" round ").data, by decide⟩, ?_, by decide, by decide⟩
  rw [← searchSeries_isSome_iff]
  decide

/-- C2 (amended): round type is resolved by the source's ordered
first-match-wins rule chain: `series`+letter ⇒ "series_<letter>"; otherwise
`seed\s+round` ⇒ "seed"; otherwise "pre-seed" ⇒ "pre_seed"; otherwise
"seed" ⇒ "seed"; otherwise "growth round" ⇒ "growth"; otherwise
"bridge round" ⇒ "bridge"; otherwise null.  (The claim's chain lacked the
`seed round` rule that precedes "pre-seed".)  The spec's example
`series_b` evaluates as stated. -/
theorem c2_round_type_rules :
    (∀ title summary,
      ((∃ c, (extract_funding_details title summary).round_type =
          some ("series_".push c)) ↔ SeriesOcc (textOf title summary)) ∧
      ((extract_funding_details title summary).round_type = some "pre_seed" ↔
        (¬ SeriesOcc (textOf title summary) ∧
          ¬ TwoWordOcc ("seed".data) ("round".data) (textOf title summary) ∧
          SubOcc ("pre-seed".data) (textOf title summary))) ∧
      ((extract_funding_details title summary).round_type = some "seed" ↔
        (¬ SeriesOcc (textOf title summary) ∧
          (TwoWordOcc ("seed".data) ("round".data) (textOf title summary) ∨
            (¬ SubOcc ("pre-seed".data) (textOf title summary) ∧
              SubOcc ("seed".data) (textOf title summary))))) ∧
      ((extract_funding_details title summary).round_type = some "growth" ↔
        (¬ SeriesOcc (textOf title summary) ∧
          ¬ TwoWordOcc ("seed".data) ("round".data) (textOf title summary) ∧
          ¬ SubOcc ("pre-seed".data) (textOf title summary) ∧
          ¬ SubOcc ("seed".data) (textOf title summary) ∧
          TwoWordOcc ("growth".data) ("round".data) (textOf title summary))) ∧
      ((extract_funding_details title summary).round_type = some "bridge" ↔
        (¬ SeriesOcc (textOf title summary) ∧
          ¬ TwoWordOcc ("seed".data) ("round".data) (textOf title summary) ∧
          ¬ SubOcc ("pre-seed".data) (textOf title summary) ∧
          ¬ SubOcc ("seed".data) (textOf title summary) ∧
          ¬ TwoWordOcc ("growth".data) ("round".data) (textOf title summary) ∧
          TwoWordOcc ("bridge".data) ("round".data) (textOf title summary))) ∧
      ((extract_funding_details title summary).round_type = none ↔
        (¬ SeriesOcc (textOf title summary) ∧
          ¬ TwoWordOcc ("seed".data) ("round".data) (textOf title summary) ∧
          ¬ SubOcc ("pre-seed".data) (textOf title summary) ∧
          ¬ SubOcc ("seed".data) (textOf title summary) ∧
          ¬ TwoWordOcc ("growth".data) ("round".data) (textOf title summary) ∧
          ¬ TwoWordOcc ("bridge".data) ("round".data) (textOf title summary)))) ∧
    (extract_funding_details "Company closes Series B round" "").round_type =
      some "series_b" := by
  exact ⟨fun title summary => extract_round_type_spec (textOf title summary), by decide⟩

/-- C3 counterexample: "$5 million backed" is a million-qualified amount, yet
the code multiplies by 1000 (the letter 'b' of "backed" falls inside the
3-character window after the match), yielding 5,000,000,000 instead of the
claimed 5 × 1,000,000. -/
theorem c3_counterexample :
    (extract_funding_details "$5 million backed" "").amount_usd =
      some (5000000000 : ℚ) ∧
    (5000000000 : ℚ) ≠ 5 * 1000000 := by
  constructor
  · have hval : (extract_funding_details "$5 million backed" "").amount_usd =
        some (amountValue (textOf "$5 million backed" "") ['5'] [] 0 10) := by
      show extract_amount (textOf "$5 million backed" "") = _
      unfold extract_amount
      rw [show firstAmountMatch (textOf "$5 million backed" "") =
        some (['5'], [], 0, 10) from by decide]
    rw [hval]
    unfold amountValue
    rw [if_pos (show billionWindow (textOf "$5 million backed" "") 0 10 = true
      from by decide)]
    have h5 : digitsToNat ['5'] 0 = 5 := by decide
    have h0 : digitsToNat [] 0 = 0 := rfl
    unfold decValue
    rw [h5, h0]
    norm_num
  · norm_num

/-- C3 (amended): the amount is taken from the first matching pattern only:
the matched number × 1,000,000, additionally × 1000 exactly when the
source's window test fires — "billion" occurs in the lower-cased slice
`text[start:end+10]`, or the letter 'b' occurs in `text[start:end+3]` (not
only when the matched amount itself carries a billion qualifier).  No match
yields null, and the spec's `$5.5M ⇒ 5,500,000` example holds. -/
theorem c3_amount_rules :
    (∀ title summary,
      ((extract_funding_details title summary).amount_usd = none ↔
        firstAmountMatch (textOf title summary) = none) ∧
      (∀ ds fs s e,
        firstAmountMatch (textOf title summary) = some (ds, fs, s, e) →
        ((SubOcc ("billion".data)
            ((((textOf title summary).drop s).take (e + 10 - s)).map lowerChar) ∨
          SubOcc (['b'])
            ((((textOf title summary).drop s).take (e + 3 - s)).map lowerChar) →
          (extract_funding_details title summary).amount_usd =
            some (decValue ds fs * 1000 * 1000000)) ∧
         (¬ (SubOcc ("billion".data)
              ((((textOf title summary).drop s).take (e + 10 - s)).map lowerChar) ∨
            SubOcc (['b'])
              ((((textOf title summary).drop s).take (e + 3 - s)).map lowerChar)) →
          (extract_funding_details title summary).amount_usd =
            some (decValue ds fs * 1000000))))) ∧
    (extract_funding_details "$5.5M funding round" "").amount_usd =
      some (5500000 : ℚ) := by
  refine ⟨fun title summary => ⟨?_, ?_⟩, ?_⟩
  · show extract_amount (textOf title summary) = none ↔ _
    unfold extract_amount
    rcases h : firstAmountMatch (textOf title summary) with _ | ⟨ds, fs, s, e⟩
    · simp
    · simp
  · intro ds fs s e h
    have hwin : billionWindow (textOf title summary) s e = true ↔
        (SubOcc ("billion".data)
            ((((textOf title summary).drop s).take (e + 10 - s)).map lowerChar) ∨
          SubOcc (['b'])
            ((((textOf title summary).drop s).take (e + 3 - s)).map lowerChar)) := by
      unfold billionWindow
      rw [Bool.or_eq_true]
      exact or_congr (containsSub_iff_SubOcc _ _) (containsSub_iff_SubOcc _ _)
    have hval : (extract_funding_details title summary).amount_usd =
        some (amountValue (textOf title summary) ds fs s e) := by
      show extract_amount (textOf title summary) = _
      unfold extract_amount
      rw [h]
    constructor
    · intro hw
      rw [hval]
      unfold amountValue
      rw [if_pos (hwin.mpr hw)]
    · intro hw
      rw [hval]
      unfold amountValue
      rw [if_neg fun hb => hw (hwin.mp hb)]
  · have hval : (extract_funding_details "$5.5M funding round" "").amount_usd =
        some (amountValue (textOf "$5.5M funding round" "") ['5'] ['5'] 0 5) := by
      show extract_amount (textOf "$5.5M funding round" "") = _
      unfold extract_amount
      rw [show firstAmountMatch (textOf "$5.5M funding round" "") =
        some (['5'], ['5'], 0, 5) from by decide]
    rw [hval]
    unfold amountValue
    rw [if_neg (show ¬ billionWindow (textOf "$5.5M funding round" "") 0 5 = true
      from by decide)]
    have h5 : digitsToNat ['5'] 0 = 5 := by decide
    unfold decValue
    rw [h5]
    norm_num

/-- Witness for the amended C3 theorem: applying it to the concrete input
"$5.5M funding round", whose first (and only) amount match is `$5.5m` at
offsets [0,5) with the billion-window test not firing, gives 5,500,000. -/
theorem c3_amount_rules_witness :
    (extract_funding_details "$5.5M funding round" "").amount_usd =
      some (decValue ['5'] ['5'] * 1000000) := by
  have h := ((c3_amount_rules.1 "$5.5M funding round" "").2
    (['5']) (['5']) 0 5 (by decide)).2
  refine h ?_
  rintro (hA | hB)
  · exact absurd ((containsSub_iff_SubOcc _ _).mpr hA) (by decide)
  · exact absurd ((containsSub_iff_SubOcc _ _).mpr hB) (by decide)

/-! ### Company-name extraction (`extract_company_name`)

The six patterns `^([A-Z][A-Za-z0-9\s\.]+?)(?:\s+<verb>s?\s)` (verbs raise/
announce/secure/close/get) and `^([A-Z][A-Za-z0-9\s\.]+?)(?:,\s)` are
embedded with the lazy (shortest-first) group semantics of Python's `+?`:
the group is grown one character at a time and the tail is tried at each
length. -/

/-- `[A-Z]`. -/
def isUpperAZ (c : Char) : Bool := 65 ≤ c.toNat && c.toNat ≤ 90

/-- The group's character class `[A-Za-z0-9\s\.]`. -/
def isClassChar (c : Char) : Bool :=
  isUpperAZ c || isLowerAZ c || isDigitChar c || isPyWs c || c.toNat == 46

/-- `s?\s` with Python's greedy-then-backtrack optional: if the head is
`'s'` the following character must be whitespace (taking the `s` and
requiring `\s`; not taking it would put `\s` on the `'s'` itself, which
fails), otherwise the head itself must be whitespace. -/
def sOptWsTail : List Char → Bool
  | 's' :: c :: _ => isPyWs c
  | c :: _ => isPyWs c
  | [] => false

/-- `\s+<verb>s?\s` at the head of `l`. -/
def verbTail (verb : List Char) (l : List Char) : Bool :=
  if (l.takeWhile isPyWs).isEmpty then false
  else
    listStartsWith verb (l.dropWhile isPyWs) &&
      sOptWsTail ((l.dropWhile isPyWs).drop verb.length)

/-- `,\s` at the head of `l`. -/
def commaTail : List Char → Bool
  | ',' :: c :: _ => isPyWs c
  | _ => false

/-- Lazy `[A-Za-z0-9\s\.]+?` followed by `tail`: consume class characters
one at a time (at least one) and accept the shortest length after which
`tail` matches; the result is the number of characters consumed. -/
def lazyScan (tail : List Char → Bool) : List Char → Option Nat
  | [] => none
  | c :: r =>
    if isClassChar c then
      if tail r then some 1
      else (lazyScan tail r).map (· + 1)
    else none

/-- `re.match` of one company pattern: upper-case first letter, lazy class
body, then `tail`; returns the captured group. -/
def matchCompanyPattern (tail : List Char → Bool) (title : List Char) :
    Option (List Char) :=
  match title with
  | c :: rest =>
    if isUpperAZ c then
      match lazyScan tail rest with
      | some k => some (c :: rest.take k)
      | none => none
    else none
  | [] => none

/-- Python `str.strip()` (whitespace, both ends). -/
def pyStrip (l : List Char) : List Char :=
  ((l.dropWhile isPyWs).reverse.dropWhile isPyWs).reverse

/-- The ordered pattern list of `extract_company_name`; first match wins,
and the captured group is `strip()`ped. -/
def regexCompany (title : List Char) : Option (List Char) :=
  match matchCompanyPattern (verbTail ("raise".data)) title with
  | some g => some (pyStrip g)
  | none =>
    match matchCompanyPattern (verbTail ("announce".data)) title with
    | some g => some (pyStrip g)
    | none =>
      match matchCompanyPattern (verbTail ("secure".data)) title with
      | some g => some (pyStrip g)
      | none =>
        match matchCompanyPattern (verbTail ("close".data)) title with
        | some g => some (pyStrip g)
        | none =>
          match matchCompanyPattern (verbTail ("get".data)) title with
          | some g => some (pyStrip g)
          | none =>
            match matchCompanyPattern commaTail title with
            | some g => some (pyStrip g)
            | none => none

/-- Python `str.split()` (split on whitespace runs, no empty words). -/
def pySplitGo : List Char → List Char → List (List Char)
  | [], cur => if cur.isEmpty then [] else [cur.reverse]
  | c :: t, cur =>
    if isPyWs c then
      if cur.isEmpty then pySplitGo t [] else cur.reverse :: pySplitGo t []
    else pySplitGo t (c :: cur)

def pySplit (l : List Char) : List (List Char) := pySplitGo l []

/-- `' '.join(words)`. -/
def joinSpace : List (List Char) → List Char
  | [] => []
  | [w] => w
  | w :: ws => w ++ ' ' :: joinSpace ws

/-- The fallback stop-token list (compared against `word.lower()`). -/
def fallbackStops : List (List Char) :=
  ["raises".data, "announces".data, "secures".data, "closes".data,
   "gets".data, "lands".data, "-".data, "–".data, "|".data]

/-- Embedding of `extract_company_name` from `ingestion.py`. -/
def extract_company_name (title : String) : Option String :=
  match regexCompany title.data with
  | some g => some (String.mk g)
  | none =>
    let words := pySplit title.data
    if 2 ≤ words.length then
      let company_words := (words.take 5).takeWhile
        fun w => !(fallbackStops.contains (w.map lowerChar))
      if company_words.isEmpty then none
      else some (String.mk (joinSpace company_words))
    else none

/-- C7 counterexample: for the 7-word title
"alpha beta gamma delta epsilon zeta eta" none of the six patterns match,
there is no stop word anywhere, yet `extract_company_name` keeps only the
first 5 words — not all of the title's words as the claim states. -/
theorem c7_counterexample :
    regexCompany ("alpha beta gamma delta epsilon zeta eta".data) = none ∧
    2 ≤ (pySplit ("alpha beta gamma delta epsilon zeta eta".data)).length ∧
    (∀ w ∈ pySplit ("alpha beta gamma delta epsilon zeta eta".data),
      fallbackStops.contains (w.map lowerChar) = false) ∧
    extract_company_name "alpha beta gamma delta epsilon zeta eta" =
      some "alpha beta gamma delta epsilon" ∧
    some "alpha beta gamma delta epsilon" ≠
      some "alpha beta gamma delta epsilon zeta eta" := by
  exact ⟨by decide, by decide, by decide, by decide, by decide⟩

/-- C7 (amended): when none of the six patterns match and the title has at
least two words, the fallback keeps the leading words up to but excluding
the first stop-word token, scanning only the first 5 words: with no
stop word among the first 5 only those FIRST FIVE words are kept (joined by
single spaces), and a stop word at position 0 yields null. -/
theorem c7_company_fallback :
    ∀ title : String, regexCompany title.data = none →
      2 ≤ (pySplit title.data).length →
      ((∀ w ∈ (pySplit title.data).take 5,
          fallbackStops.contains (w.map lowerChar) = false) →
        extract_company_name title =
          some (String.mk (joinSpace ((pySplit title.data).take 5)))) ∧
      (∀ pre w rest, (pySplit title.data).take 5 = pre ++ w :: rest →
        (∀ x ∈ pre, fallbackStops.contains (x.map lowerChar) = false) →
        fallbackStops.contains (w.map lowerChar) = true →
        extract_company_name title =
          (if pre.isEmpty then none else some (String.mk (joinSpace pre)))) := by
  intro title h1 h2
  have hbody : extract_company_name title =
      (if (((pySplit title.data).take 5).takeWhile
          fun w => !(fallbackStops.contains (w.map lowerChar))).isEmpty then none
       else some (String.mk (joinSpace (((pySplit title.data).take 5).takeWhile
          fun w => !(fallbackStops.contains (w.map lowerChar)))))) := by
    unfold extract_company_name
    rw [h1]
    dsimp only
    rw [if_pos h2]
  constructor
  · intro hall
    have htw : (((pySplit title.data).take 5).takeWhile
        fun w => !(fallbackStops.contains (w.map lowerChar))) =
        (pySplit title.data).take 5 :=
      takeWhile_all _ _ fun x hx => by rw [hall x hx]; rfl
    rw [hbody, htw]
    rw [if_neg ?_]
    intro habs
    have h0 : ((pySplit title.data).take 5).length = 0 := by
      rw [List.isEmpty_iff] at habs
      rw [habs]
      rfl
    rw [List.length_take] at h0
    omega
  · intro pre w rest heq hpre hw
    have htw : (((pySplit title.data).take 5).takeWhile
        fun w => !(fallbackStops.contains (w.map lowerChar))) = pre := by
      rw [heq]
      exact takeWhile_app _ pre w rest
        (fun x hx => by rw [hpre x hx]; rfl) (by rw [hw]; rfl)
    rw [hbody, htw]

/-- Witness for the amended C7 theorem at the concrete title
"Acme Corp Inc": no pattern matches, three words, no stop word, and the
result keeps (all of) the first five words. -/
theorem c7_company_fallback_witness :
    extract_company_name "Acme Corp Inc" =
      some (String.mk (joinSpace ((pySplit ("Acme Corp Inc").data).take 5))) :=
  (c7_company_fallback "Acme Corp Inc" (by decide) (by decide)).1 (by decide)

/-! ### Market-fit analysis (`analysis.py`)

`run_llm_analysis` either returns the deterministic stub (no API key
configured, or any call/parse failure) or sanitizes the model's parsed JSON
response.  The parsed response is embedded as optional fields (a missing
JSON key is `none`); the external call's outcome is a parameter. -/

/-- The five-key rubric produced by the analyzer. -/
structure Rubric where
  budget_buyer_exists : Int
  localization_arabic_bilingual : Int
  regulatory_friction : Int
  distribution_path : Int
  time_to_revenue : Int
deriving DecidableEq, Repr

/-- An analysis payload: `fit_score`, `mena_summary`, `rubric`. -/
structure AnalysisPayload where
  fit_score : Int
  mena_summary : String
  rubric : Rubric
deriving DecidableEq, Repr

/-- Embedding of `get_stub_analysis`. -/
def get_stub_analysis : AnalysisPayload :=
  { fit_score := 50
    mena_summary := "This opportunity requires further analysis to assess MENA applicability. Key factors to evaluate include regional buyer appetite, localization requirements, and regulatory considerations."
    rubric := { budget_buyer_exists := 10, localization_arabic_bilingual := 10,
                regulatory_friction := 10, distribution_path := 10,
                time_to_revenue := 10 } }

/-- The model's parsed JSON response (`json.loads` result): each field is
`none` when the key is missing; the rubric is an association list. -/
structure RawLlmResult where
  fit_score : Option Int
  mena_summary : Option String
  rubric : Option (List (String × Int))
deriving Repr

/-- `min(100, max(0, int(...)))`. -/
def clampScore (n : Int) : Int := min 100 (max 0 n)

/-- `min(20, max(0, int(...)))`. -/
def clampRubricVal (n : Int) : Int := min 20 (max 0 n)

/-- `rubric[key]` lookup in the parsed JSON object. -/
def lookupRubric (r : List (String × Int)) (k : String) : Option Int :=
  (r.find? fun p => p.1 == k).map Prod.snd

/-- `rubric[key] = min(20, max(0, int(rubric[key])))` if present, else 10. -/
def rubricField (o : Option Int) : Int :=
  match o with
  | some v => clampRubricVal v
  | none => 10

/-- The sanitation loop over the five rubric keys. -/
def sanitizeRubric (r : List (String × Int)) : Rubric :=
  { budget_buyer_exists := rubricField (lookupRubric r "budget_buyer_exists")
    localization_arabic_bilingual :=
      rubricField (lookupRubric r "localization_arabic_bilingual")
    regulatory_friction := rubricField (lookupRubric r "regulatory_friction")
    distribution_path := rubricField (lookupRubric r "distribution_path")
    time_to_revenue := rubricField (lookupRubric r "time_to_revenue") }

/-- `result.get("mena_summary", "Analysis completed.")[:1000]`. -/
def truncateSummary (s : String) : String := ⟨s.data.take 1000⟩

/-- The validate-and-sanitize step of `run_llm_analysis`. -/
def sanitizeLlm (raw : RawLlmResult) : AnalysisPayload :=
  { fit_score := clampScore (raw.fit_score.getD 50)
    mena_summary := truncateSummary (raw.mena_summary.getD "Analysis completed.")
    rubric := sanitizeRubric (raw.rubric.getD []) }

/-- Embedding of `run_llm_analysis`: no API key (empty string is falsy) ⇒
stub; call/parse failure ⇒ stub; otherwise sanitize the parsed response. -/
def run_llm_analysis (api_key : String) (llm : Except Unit RawLlmResult) :
    AnalysisPayload :=
  if api_key == "" then get_stub_analysis
  else
    match llm with
    | .error _ => get_stub_analysis
    | .ok raw => sanitizeLlm raw

/-- Sum of the five rubric sub-scores. -/
def rubricSum (r : Rubric) : Int :=
  r.budget_buyer_exists + r.localization_arabic_bilingual +
    r.regulatory_friction + r.distribution_path + r.time_to_revenue

/-- All five rubric sub-scores lie in [0, 20]. -/
def rubricInRange (r : Rubric) : Prop :=
  (0 ≤ r.budget_buyer_exists ∧ r.budget_buyer_exists ≤ 20) ∧
  (0 ≤ r.localization_arabic_bilingual ∧ r.localization_arabic_bilingual ≤ 20) ∧
  (0 ≤ r.regulatory_friction ∧ r.regulatory_friction ≤ 20) ∧
  (0 ≤ r.distribution_path ∧ r.distribution_path ≤ 20) ∧
  (0 ≤ r.time_to_revenue ∧ r.time_to_revenue ≤ 20)

theorem rubricField_bounds (o : Option Int) :
    0 ≤ rubricField o ∧ rubricField o ≤ 20 := by
  rcases o with _ | v
  · exact ⟨by norm_num [rubricField], by norm_num [rubricField]⟩
  · unfold rubricField clampRubricVal
    constructor
    · exact le_min (by norm_num) (le_max_left 0 v)
    · exact min_le_left 20 _

/-- C4 counterexample: a model response with `fit_score = 100` and all five
rubric keys present and equal to 0 passes sanitization unchanged — the
sanitized payload's fit_score (100) does not equal the rubric sum (0). -/
theorem c4_counterexample :
    (run_llm_analysis "sk-test" (.ok
      { fit_score := some 100, mena_summary := none,
        rubric := some [("budget_buyer_exists", 0),
          ("localization_arabic_bilingual", 0), ("regulatory_friction", 0),
          ("distribution_path", 0), ("time_to_revenue", 0)] })).fit_score = 100 ∧
    rubricSum (run_llm_analysis "sk-test" (.ok
      { fit_score := some 100, mena_summary := none,
        rubric := some [("budget_buyer_exists", 0),
          ("localization_arabic_bilingual", 0), ("regulatory_friction", 0),
          ("distribution_path", 0), ("time_to_revenue", 0)] })).rubric = 0 ∧
    (100 : Int) ≠ 0 := by
  exact ⟨by decide, by decide, by decide⟩

/-- C4 (amended): every payload the analyzer produces has an integer
fit_score in [0,100] and all five rubric sub-scores in [0,20], with missing
rubric keys defaulting to 10; the STUB payload's fit_score (50) moreover
equals its rubric sum, and the stub is returned whenever the API key is
absent or the call fails — but a sanitized model payload's fit_score is
clamped independently of the rubric and need not equal the rubric sum. -/
theorem c4_analysis_payload_bounds :
    (∀ (key : String) (llm : Except Unit RawLlmResult),
      0 ≤ (run_llm_analysis key llm).fit_score ∧
      (run_llm_analysis key llm).fit_score ≤ 100 ∧
      rubricInRange (run_llm_analysis key llm).rubric) ∧
    (get_stub_analysis.fit_score = 50 ∧
      rubricInRange get_stub_analysis.rubric ∧
      rubricSum get_stub_analysis.rubric = get_stub_analysis.fit_score) ∧
    (∀ llm, run_llm_analysis "" llm = get_stub_analysis) ∧
    (∀ (key : String) (e : Unit), run_llm_analysis key (.error e) = get_stub_analysis) ∧
    (∀ raw : RawLlmResult,
      lookupRubric (raw.rubric.getD []) "budget_buyer_exists" = none →
      (sanitizeLlm raw).rubric.budget_buyer_exists = 10) := by
  have hstub : 0 ≤ get_stub_analysis.fit_score ∧ get_stub_analysis.fit_score ≤ 100 ∧
      rubricInRange get_stub_analysis.rubric := by
    refine ⟨by decide, by decide, ?_⟩
    unfold rubricInRange get_stub_analysis
    norm_num
  refine ⟨?_, ⟨by decide, ?_, by decide⟩, ?_, ?_, ?_⟩
  · intro key llm
    unfold run_llm_analysis
    by_cases hk : (key == "") = true
    · rw [if_pos hk]; exact hstub
    · rw [if_neg hk]
      rcases llm with e | raw
      · exact hstub
      · refine ⟨?_, ?_, ?_⟩
        · exact le_min (by norm_num) (le_max_left 0 _)
        · exact min_le_left 100 _
        · exact ⟨rubricField_bounds _, rubricField_bounds _, rubricField_bounds _,
            rubricField_bounds _, rubricField_bounds _⟩
  · exact hstub.2.2
  · intro llm
    unfold run_llm_analysis
    rfl
  · intro key e
    unfold run_llm_analysis
    by_cases hk : (key == "") = true
    · rw [if_pos hk]
    · rw [if_neg hk]
  · intro raw h
    show rubricField (lookupRubric (raw.rubric.getD []) "budget_buyer_exists") = 10
    rw [h]
    rfl

/-- Witness for the amended C4 theorem: a parsed response with no rubric at
all gets budget_buyer_exists defaulted to 10. -/
theorem c4_analysis_payload_bounds_witness :
    (sanitizeLlm ⟨none, none, none⟩).rubric.budget_buyer_exists = 10 :=
  c4_analysis_payload_bounds.2.2.2.2 ⟨none, none, none⟩ (by decide)

/-! ### Analysis idempotence (`analyze_item`)

The database is embedded as the list of item ids and the list of
`MenaAnalysis` records; the configuration and the per-item LLM outcome are
parameters. -/

/-- A `MenaAnalysis` row. -/
structure AnalysisRec where
  item_id : Nat
  fit_score : Int
  mena_summary : String
  rubric : Rubric
  model_name : String
deriving DecidableEq, Repr

/-- The analysis-relevant database state. -/
structure AnalysisDb where
  items : List Nat
  analyses : List AnalysisRec
deriving DecidableEq, Repr

/-- The relevant configuration (`config.py`): `openai_api_key` (blank ⇒
stub analyzer) and `openai_model`. -/
structure Config where
  openai_api_key : String
  openai_model : String
deriving DecidableEq, Repr

/-- Embedding of `analyze_item`: item missing ⇒ "error"; an existing
analysis record ⇒ "skipped" with the state untouched; otherwise run the
analysis and append exactly one record. -/
def analyze_item (cfg : Config) (llm : Nat → Except Unit RawLlmResult)
    (db : AnalysisDb) (item_id : Nat) : String × AnalysisDb :=
  if ¬ db.items.contains item_id then ("error", db)
  else if db.analyses.any fun a => a.item_id == item_id then ("skipped", db)
  else
    let result := run_llm_analysis cfg.openai_api_key (llm item_id)
    ("success",
      { db with analyses := db.analyses ++
          [{ item_id := item_id
             fit_score := result.fit_score
             mena_summary := result.mena_summary
             rubric := result.rubric
             model_name :=
               if cfg.openai_api_key == "" then "stub" else cfg.openai_model }] })

/-- C5: analysis is one-shot per item.  If an analysis record already exists
for an (existing) item, `analyze_item` returns "skipped" and leaves the
state unchanged; and starting from an item with no record, running
`analyze_item` twice leaves exactly one record for that item, the second
call returning "skipped" with the state unchanged. -/
theorem c5_analysis_idempotent :
    (∀ (cfg : Config) (llm : Nat → Except Unit RawLlmResult) (db : AnalysisDb)
      (item_id : Nat),
      db.items.contains item_id = true →
      (∃ a ∈ db.analyses, a.item_id = item_id) →
      analyze_item cfg llm db item_id = ("skipped", db)) ∧
    (∀ (cfg : Config) (llm : Nat → Except Unit RawLlmResult) (db : AnalysisDb)
      (item_id : Nat),
      db.items.contains item_id = true →
      (db.analyses.filter fun a => a.item_id == item_id) = [] →
      ((analyze_item cfg llm db item_id).2.analyses.filter
          fun a => a.item_id == item_id).length = 1 ∧
      analyze_item cfg llm (analyze_item cfg llm db item_id).2 item_id =
        ("skipped", (analyze_item cfg llm db item_id).2)) := by
  have hskip : ∀ (cfg : Config) (llm : Nat → Except Unit RawLlmResult)
      (db : AnalysisDb) (item_id : Nat),
      db.items.contains item_id = true →
      (∃ a ∈ db.analyses, a.item_id = item_id) →
      analyze_item cfg llm db item_id = ("skipped", db) := by
    intro cfg llm db item_id hitem ⟨a, hmem, hid⟩
    unfold analyze_item
    rw [if_neg (by rw [hitem]; simp)]
    rw [if_pos (List.any_eq_true.mpr ⟨a, hmem, by rw [hid]; simp⟩)]
  refine ⟨hskip, ?_⟩
  intro cfg llm db item_id hitem hnone
  have hnoany : (db.analyses.any fun a => a.item_id == item_id) = false := by
    rw [Bool.eq_false_iff]
    intro hany
    rcases List.any_eq_true.mp hany with ⟨a, hmem, hbeq⟩
    have : a ∈ db.analyses.filter fun a => a.item_id == item_id :=
      List.mem_filter.mpr ⟨hmem, hbeq⟩
    rw [hnone] at this
    simp at this
  have hrun : analyze_item cfg llm db item_id = ("success",
      { db with analyses := db.analyses ++
          [{ item_id := item_id
             fit_score := (run_llm_analysis cfg.openai_api_key (llm item_id)).fit_score
             mena_summary :=
               (run_llm_analysis cfg.openai_api_key (llm item_id)).mena_summary
             rubric := (run_llm_analysis cfg.openai_api_key (llm item_id)).rubric
             model_name :=
               if cfg.openai_api_key == "" then "stub" else cfg.openai_model }] }) := by
    unfold analyze_item
    rw [if_neg (by rw [hitem]; simp), if_neg (by rw [hnoany]; simp)]
  constructor
  · rw [hrun]
    rw [List.filter_append, hnone]
    simp
  · apply hskip
    · rw [hrun]
      exact hitem
    · rw [hrun]
      refine ⟨_, List.mem_append_right _ (List.mem_singleton.mpr rfl), rfl⟩

/-- Witness for the C5 theorem: a one-item database with no analysis; after
one run, exactly one record exists and the second run is a skipped no-op. -/
theorem c5_analysis_idempotent_witness :
    ((analyze_item ⟨"", "gpt-4o-mini"⟩ (fun _ => .error ())
        ⟨[1], []⟩ 1).2.analyses.filter fun a => a.item_id == 1).length = 1 ∧
      analyze_item ⟨"", "gpt-4o-mini"⟩ (fun _ => .error ())
          (analyze_item ⟨"", "gpt-4o-mini"⟩ (fun _ => .error ()) ⟨[1], []⟩ 1).2 1 =
        ("skipped",
          (analyze_item ⟨"", "gpt-4o-mini"⟩ (fun _ => .error ()) ⟨[1], []⟩ 1).2) :=
  c5_analysis_idempotent.2 ⟨"", "gpt-4o-mini"⟩ (fun _ => .error ())
    ⟨[1], []⟩ 1 (by decide) (by decide)

/-! ### Content fingerprint (`create_item_hash`)

`create_item_hash` normalizes the URL with `urllib.parse.urlparse` (host +
path, lower-cased, slashes stripped at both ends), lower-cases and trims
the title, appends the ISO timestamp (or ""), and hashes the UTF-8 bytes
with SHA-256, returning the hex digest.  SHA-256 is embedded over `Nat`
with explicit `% 2^32` arithmetic.

`urlparse` itself can raise: after extracting the netloc, `urlsplit`
raises `ValueError("Invalid IPv6 URL")` when the netloc contains `[`
without `]` or vice versa, and that exception propagates out of
`create_item_hash`, so the fingerprint is embedded as an
`Except String String`.  CPython applies two further checks that this
embedding does not decide: `_check_bracketed_host` (3.11+, netlocs with
balanced brackets) and `_checknetloc` (netlocs with non-ASCII characters
whose NFKC normalization introduces separators).  Both provably pass for
every netloc that is ASCII and bracket-free, so the success guarantee
below is stated for exactly that domain, on which the model and every
CPython 3 version agree. -/

/-- First occurrence split: `some (before, after)` when `c` occurs. -/
def splitAtFirst (c : Char) : List Char → Option (List Char × List Char)
  | [] => none
  | x :: t =>
    if x == c then some ([], t)
    else (splitAtFirst c t).map fun p => (x :: p.1, p.2)

def isAlphaAZ (c : Char) : Bool := isUpperAZ c || isLowerAZ c

/-- RFC 3986 scheme characters: letters, digits, `+`, `-`, `.`. -/
def isSchemeChar (c : Char) : Bool :=
  isAlphaAZ c || isDigitChar c || c.toNat == 43 || c.toNat == 45 || c.toNat == 46

/-- The components of `urllib.parse.urlparse` that `create_item_hash`
reads. -/
structure UrlParts where
  scheme : List Char
  netloc : List Char
  path : List Char
  query : List Char
  fragment : List Char
deriving DecidableEq, Repr

/-- WHATWG C0-control-or-space strip (both ends) applied by `urlsplit`. -/
def stripC0Space (l : List Char) : List Char :=
  ((l.dropWhile fun c => c.toNat ≤ 32).reverse.dropWhile
    fun c => c.toNat ≤ 32).reverse

/-- `urlsplit` removes tab, LF and CR anywhere in the URL. -/
def removeTabNl (l : List Char) : List Char :=
  l.filter fun c => !(c.toNat == 9 || c.toNat == 10 || c.toNat == 13)

/-- The component splitting `urllib.parse.urlsplit` performs for the
generic `scheme://netloc/path?query#fragment` grammar (everything
`urlsplit` computes apart from its bracket validation of the netloc,
which `urlsplit` below layers on top). -/
def splitCore (url0 : List Char) : UrlParts :=
  let url := removeTabNl (stripC0Space url0)
  let schemeRest : List Char × List Char :=
    match splitAtFirst ':' url with
    | some (before, after) =>
      match before with
      | [] => ([], url)
      | c :: cs =>
        if isAlphaAZ c && cs.all isSchemeChar then ((c :: cs).map lowerChar, after)
        else ([], url)
    | none => ([], url)
  let netlocRest : List Char × List Char :=
    match schemeRest.2 with
    | '/' :: '/' :: r =>
      let nl := r.takeWhile fun c => !(c == '/' || c == '?' || c == '#')
      (nl, r.drop nl.length)
    | rest => ([], rest)
  let fragSplit : List Char × List Char :=
    match splitAtFirst '#' netlocRest.2 with
    | some (a, b) => (a, b)
    | none => (netlocRest.2, [])
  let querySplit : List Char × List Char :=
    match splitAtFirst '?' fragSplit.1 with
    | some (a, b) => (a, b)
    | none => (fragSplit.1, [])
  { scheme := schemeRest.1
    netloc := netlocRest.1
    path := querySplit.1
    query := querySplit.2
    fragment := fragSplit.2 }

/-- The condition under which `urlsplit` raises
`ValueError("Invalid IPv6 URL")`: the netloc contains one bracket kind
but not the other. -/
def bracketsUnbalanced (netloc : List Char) : Bool :=
  ((netloc.any fun c => c == '[') && !(netloc.any fun c => c == ']')) ||
    ((netloc.any fun c => c == ']') && !(netloc.any fun c => c == '['))

/-- Embedding of `urllib.parse.urlsplit`: component splitting plus the
unbalanced-bracket `ValueError`, modeled as `Except.error`. -/
def urlsplit (url0 : List Char) : Except String UrlParts :=
  if bracketsUnbalanced (splitCore url0).netloc then .error "Invalid IPv6 URL"
  else .ok (splitCore url0)

/-- `urllib.parse.uses_params`: the schemes for which `urlparse` splits a
`;params` suffix off the path. -/
def uses_params : List (List Char) :=
  ["".data, "ftp".data, "hdl".data, "prospero".data, "http".data,
   "imap".data, "https".data, "ftps".data, "shttp".data, "rtsp".data,
   "rtspu".data, "sip".data, "sips".data, "mms".data, "sftp".data,
   "tel".data]

/-- Index of the first occurrence of `c` (`str.find`). -/
def idxOfC (c : Char) : List Char → Option Nat
  | [] => none
  | x :: t => if x == c then some 0 else (idxOfC c t).map (· + 1)

/-- Index of the last occurrence of `c` (`str.rfind`), `none` if absent. -/
def rIdxOfC (c : Char) (l : List Char) : Option Nat :=
  match idxOfC c l.reverse with
  | some j => some (l.length - 1 - j)
  | none => none

/-- `urllib.parse._splitparams`: when the path contains `/`, the params
start at the first `;` at or after the last `/` (no such `;` means no
params); otherwise at the first `;`. -/
def splitparams (url : List Char) : List Char × List Char :=
  match (match rIdxOfC '/' url with
         | some s =>
           match idxOfC ';' (url.drop s) with
           | some j => some (s + j)
           | none => none
         | none => idxOfC ';' url) with
  | some i => (url.take i, url.drop (i + 1))
  | none => (url, [])

/-- Embedding of `urllib.parse.urlparse`: `urlsplit` (whose `ValueError`
propagates), then `;params` splitting off the path for `uses_params`
schemes.  The split-off params segment is not retained: `create_item_hash`
reads only `netloc` and `path`, so params are ignored exactly like `query`
and `fragment`. -/
def urlparse (url0 : List Char) : Except String UrlParts :=
  match urlsplit url0 with
  | .error e => .error e
  | .ok p =>
    .ok (if (uses_params.any fun s => s == p.scheme) &&
            (p.path.any fun c => c == ';') then
          { p with path := (splitparams p.path).1 }
        else p)

/-- The parse result `urlparse` returns whenever it does not raise (the
`.ok` branch of `urlparse` as a total function). -/
def parseNoRaise (url0 : List Char) : UrlParts :=
  if (uses_params.any fun s => s == (splitCore url0).scheme) &&
      ((splitCore url0).path.any fun c => c == ';') then
    { splitCore url0 with path := (splitparams (splitCore url0).path).1 }
  else splitCore url0

/-- Python `.strip("/")`. -/
def stripSlashes (l : List Char) : List Char :=
  ((l.dropWhile fun c => c == '/').reverse.dropWhile fun c => c == '/').reverse

/-- `datetime` values as `create_item_hash` receives them (naive, whole
seconds — the fields `isoformat()` prints for feed dates). -/
structure PyDateTime where
  year : Nat
  month : Nat
  day : Nat
  hour : Nat
  minute : Nat
  second : Nat
deriving DecidableEq, Repr

/-- Zero-padded decimal digits. -/
def padNum (w n : Nat) : List Char :=
  let d := Nat.toDigits 10 n
  List.replicate (w - d.length) '0' ++ d

/-- `datetime.isoformat()` for naive whole-second values:
`YYYY-MM-DDTHH:MM:SS`. -/
def isoformat (d : PyDateTime) : List Char :=
  padNum 4 d.year ++ '-' :: (padNum 2 d.month ++ '-' :: (padNum 2 d.day ++
    'T' :: (padNum 2 d.hour ++ ':' :: (padNum 2 d.minute ++
      ':' :: padNum 2 d.second))))

/-- UTF-8 encoding of one code point. -/
def utf8Char (c : Char) : List Nat :=
  let n := c.toNat
  if n < 128 then [n]
  else if n < 2048 then [192 + n / 64, 128 + n % 64]
  else if n < 65536 then
    [224 + n / 4096, 128 + (n / 64) % 64, 128 + n % 64]
  else
    [240 + n / 262144, 128 + (n / 4096) % 64, 128 + (n / 64) % 64, 128 + n % 64]

/-- UTF-8 encoding of a character list (`str.encode()`). -/
def utf8Bytes : List Char → List Nat
  | [] => []
  | c :: t => utf8Char c ++ utf8Bytes t

/-- Truncation to a 32-bit word. -/
def w32 (n : Nat) : Nat := n % 4294967296

/-- 32-bit right rotation (input below `2^32`). -/
def rotr (k x : Nat) : Nat := w32 ((x >>> k) ||| (x <<< (32 - k)))

/-- The SHA-256 round constants (decimal). -/
def sha256K : List Nat :=
  [1116352408, 1899447441, 3049323471, 3921009573,
   961987163, 1508970993, 2453635748, 2870763221,
   3624381080, 310598401, 607225278, 1426881987,
   1925078388, 2162078206, 2614888103, 3248222580,
   3835390401, 4022224774, 264347078, 604807628,
   770255983, 1249150122, 1555081692, 1996064986,
   2554220882, 2821834349, 2952996808, 3210313671,
   3336571891, 3584528711, 113926993, 338241895,
   666307205, 773529912, 1294757372, 1396182291,
   1695183700, 1986661051, 2177026350, 2456956037,
   2730485921, 2820302411, 3259730800, 3345764771,
   3516065817, 3600352804, 4094571909, 275423344,
   430227734, 506948616, 659060556, 883997877,
   958139571, 1322822218, 1537002063, 1747873779,
   1955562222, 2024104815, 2227730452, 2361852424,
   2428436474, 2756734187, 3204031479, 3329325298]

/-- SHA-256 message padding: `0x80`, zeros to 56 mod 64, 8 length bytes. -/
def padMessage (ms : List Nat) : List Nat :=
  let L := ms.length
  let bits := 8 * L
  ms ++ [128] ++ List.replicate ((119 - L % 64) % 64) 0 ++
    [bits / 72057594037927936 % 256, bits / 281474976710656 % 256,
     bits / 1099511627776 % 256, bits / 4294967296 % 256,
     bits / 16777216 % 256, bits / 65536 % 256, bits / 256 % 256, bits % 256]

/-- Split into 64-byte blocks. -/
def chunksOf64 (l : List Nat) : List (List Nat) :=
  if h : l = [] then []
  else l.take 64 :: chunksOf64 (l.drop 64)
termination_by l.length
decreasing_by
  rw [List.length_drop]
  have : 0 < l.length := List.length_pos.mpr h
  omega

/-- The 16 big-endian words of one block. -/
def wordsOfBlock (b : List Nat) : List Nat :=
  (List.range 16).map fun i =>
    b.getD (4 * i) 0 * 16777216 + b.getD (4 * i + 1) 0 * 65536 +
      b.getD (4 * i + 2) 0 * 256 + b.getD (4 * i + 3) 0

/-- Message-schedule extension step (`ws.length` is the next index). -/
def nextWord (ws : List Nat) : Nat :=
  let i := ws.length
  let x15 := ws.getD (i - 15) 0
  let x2 := ws.getD (i - 2) 0
  let s0 := rotr 7 x15 ^^^ rotr 18 x15 ^^^ (x15 >>> 3)
  let s1 := rotr 17 x2 ^^^ rotr 19 x2 ^^^ (x2 >>> 10)
  w32 (ws.getD (i - 16) 0 + s0 + ws.getD (i - 7) 0 + s1)

/-- The eight working variables. -/
structure Sha256State where
  a : Nat
  b : Nat
  c : Nat
  d : Nat
  e : Nat
  f : Nat
  g : Nat
  h : Nat
deriving DecidableEq, Repr

/-- One compression round for a schedule word and its constant. -/
def compressWord (st : Sha256State) (kw : Nat × Nat) : Sha256State :=
  let S1 := rotr 6 st.e ^^^ rotr 11 st.e ^^^ rotr 25 st.e
  let notE := 4294967295 ^^^ st.e
  let ch := (st.e &&& st.f) ^^^ (notE &&& st.g)
  let temp1 := w32 (st.h + S1 + ch + kw.2 + kw.1)
  let S0 := rotr 2 st.a ^^^ rotr 13 st.a ^^^ rotr 22 st.a
  let maj := (st.a &&& st.b) ^^^ (st.a &&& st.c) ^^^ (st.b &&& st.c)
  let temp2 := w32 (S0 + maj)
  ⟨w32 (temp1 + temp2), st.a, st.b, st.c, w32 (st.d + temp1), st.e, st.f, st.g⟩

/-- Process one 64-byte block. -/
def compressBlock (hs : Sha256State) (block : List Nat) : Sha256State :=
  let ws := (List.range 48).foldl (fun ws _ => ws ++ [nextWord ws])
    (wordsOfBlock block)
  let st := (ws.zip sha256K).foldl compressWord hs
  ⟨w32 (hs.a + st.a), w32 (hs.b + st.b), w32 (hs.c + st.c), w32 (hs.d + st.d),
   w32 (hs.e + st.e), w32 (hs.f + st.f), w32 (hs.g + st.g), w32 (hs.h + st.h)⟩

def sha256Init : Sha256State :=
  ⟨1779033703, 3144134277, 1013904242, 2773480762,
   1359893119, 2600822924, 528734635, 1541459225⟩

/-- SHA-256 of a byte list, as the final state words. -/
def sha256Words (msg : List Nat) : Sha256State :=
  (chunksOf64 (padMessage msg)).foldl compressBlock sha256Init

def hexDigits : List Char := "0123456789abcdef".data

def hexDigit (n : Nat) : Char := hexDigits.getD (n % 16) '0'

/-- Eight hex characters of one 32-bit word (big-endian nibbles). -/
def wordHex (w : Nat) : List Char :=
  [hexDigit (w / 268435456), hexDigit (w / 16777216), hexDigit (w / 1048576),
   hexDigit (w / 65536), hexDigit (w / 4096), hexDigit (w / 256),
   hexDigit (w / 16), hexDigit w]

/-- `hashlib.sha256(...).hexdigest()`. -/
def sha256hex (msg : List Nat) : List Char :=
  wordHex (sha256Words msg).a ++ wordHex (sha256Words msg).b ++
    wordHex (sha256Words msg).c ++ wordHex (sha256Words msg).d ++
    wordHex (sha256Words msg).e ++ wordHex (sha256Words msg).f ++
    wordHex (sha256Words msg).g ++ wordHex (sha256Words msg).h

/-- The string `create_item_hash` feeds to the digest, given the parsed
URL: `normalized_url|normalized_title|date_str`. -/
def hashContent (parsed : UrlParts) (title : String)
    (published_at : Option PyDateTime) : List Char :=
  let normalized_url := stripSlashes ((parsed.netloc ++ parsed.path).map lowerChar)
  let normalized_title := pyStrip (title.data.map lowerChar)
  let date_str := match published_at with
    | some d => isoformat d
    | none => []
  normalized_url ++ '|' :: (normalized_title ++ '|' :: date_str)

/-- Embedding of `create_item_hash` from `ingestion.py`.  The `ValueError`
that `urlparse` can raise propagates out of the function, so the result is
an `Except`. -/
def create_item_hash (url title : String) (published_at : Option PyDateTime) :
    Except String String :=
  match urlparse url.data with
  | .error e => .error e
  | .ok parsed =>
    .ok (String.mk (sha256hex (utf8Bytes (hashContent parsed title published_at))))

/-- The digest `create_item_hash` produces whenever it does not raise: the
`.ok` branch of `create_item_hash` applied to the non-raising parse.  The
ingestion model's item loop below uses this value directly: there an
exception from `create_item_hash` is by definition a per-source fault,
which that model already represents abstractly through its feed-behavior
parameter, and on every non-raising URL the two agree
(`create_item_hash_ok_of_balanced`). -/
def itemDigest (url title : String) (published_at : Option PyDateTime) :
    String :=
  String.mk (sha256hex (utf8Bytes
    (hashContent (parseNoRaise url.data) title published_at)))

/-- Hexadecimal digit characters (`0-9a-f`). -/
def isHexChar (c : Char) : Bool :=
  isDigitChar c || (97 ≤ c.toNat && c.toNat ≤ 102)

theorem isHexChar_hexDigit (n : Nat) : isHexChar (hexDigit n) = true := by
  have h16 : n % 16 < 16 := Nat.mod_lt _ (by norm_num)
  have hall : ∀ m, m < 16 → isHexChar (hexDigits.getD m '0') = true := by decide
  exact hall (n % 16) h16

theorem wordHex_length (w : Nat) : (wordHex w).length = 8 := rfl

theorem sha256hex_length (m : List Nat) : (sha256hex m).length = 64 := by
  unfold sha256hex
  simp [List.length_append, wordHex_length]

theorem wordHex_all (w : Nat) : (wordHex w).all isHexChar = true := by
  simp [wordHex, isHexChar_hexDigit]

theorem sha256hex_all (m : List Nat) : (sha256hex m).all isHexChar = true := by
  unfold sha256hex
  simp [List.all_append, wordHex_all]

theorem any_beq_false (l : List Char) (c : Char) (p : Char → Bool)
    (hall : l.all p = true) (hc : p c = false) :
    (l.any fun x => x == c) = false := by
  rw [Bool.eq_false_iff]
  intro h
  rcases List.any_eq_true.mp h with ⟨x, hmem, hbeq⟩
  have hx : x = c := by simpa using hbeq
  subst hx
  rw [List.all_eq_true.mp hall x hmem] at hc
  cases hc

theorem urlparse_ok_of_balanced (url0 : List Char)
    (h : bracketsUnbalanced (splitCore url0).netloc = false) :
    urlparse url0 = Except.ok (parseNoRaise url0) := by
  unfold urlparse urlsplit parseNoRaise
  rw [if_neg (by simp [h])]

/-- On any URL whose netloc passes the bracket check, `create_item_hash`
does not raise and returns the `itemDigest` value the ingestion model
uses. -/
theorem create_item_hash_ok_of_balanced (url title : String)
    (t : Option PyDateTime)
    (h : bracketsUnbalanced (splitCore url.data).netloc = false) :
    create_item_hash url title t = Except.ok (itemDigest url title t) := by
  unfold create_item_hash itemDigest
  rw [urlparse_ok_of_balanced url.data h]

/-- C1 counterexample: `create_item_hash` is not defined for every string
input — on `"https://e[x.com/path"` the netloc `e[x.com` has `[` without
`]`, `urlparse` raises `ValueError("Invalid IPv6 URL")`, and the
exception propagates, so no 64-character digest is returned. -/
theorem c1_counterexample :
    (splitCore ("https://e[x.com/path".data)).netloc = "e[x.com".data ∧
    create_item_hash "https://e[x.com/path" "T" none =
      Except.error "Invalid IPv6 URL" :=
  ⟨by decide, rfl⟩

/-- C1 (amended): `create_item_hash` is not total — `urlparse` raises
`ValueError("Invalid IPv6 URL")` on URLs whose netloc has an unbalanced
bracket and the exception propagates.  Whenever it does return a value,
that value is a 64-character string of hexadecimal digits; in particular
it succeeds (deterministically, with the `itemDigest` value) on every URL
whose netloc is ASCII and bracket-free; and it identifies the two URL
spellings of the spec's example: case of host/path and a trailing slash
do not change the digest. -/
theorem c1_create_item_hash :
    (∀ (url title : String) (t : Option PyDateTime) (d : String),
      create_item_hash url title t = Except.ok d →
      d.length = 64 ∧ d.data.all isHexChar = true) ∧
    (∀ (url title : String) (t : Option PyDateTime),
      ((splitCore url.data).netloc.all fun c =>
        c.toNat ≤ 127 && !(c == '[') && !(c == ']')) = true →
      create_item_hash url title t = Except.ok (itemDigest url title t)) ∧
    create_item_hash "https://Example.com/Article/" "T" none =
      create_item_hash "https://example.com/article" "T" none := by
  refine ⟨?_, ?_, ?_⟩
  · intro url title t d h
    unfold create_item_hash at h
    cases hu : urlparse url.data with
    | error e => rw [hu] at h; cases h
    | ok parsed =>
      rw [hu] at h
      have hd : String.mk (sha256hex (utf8Bytes (hashContent parsed title t)))
          = d := Except.ok.inj h
      rw [← hd]
      exact ⟨sha256hex_length _, sha256hex_all _⟩
  · intro url title t hsafe
    have h1 : ((splitCore url.data).netloc.any fun x => x == '[') = false :=
      any_beq_false _ '[' _ hsafe (by decide)
    have h2 : ((splitCore url.data).netloc.any fun x => x == ']') = false :=
      any_beq_false _ ']' _ hsafe (by decide)
    exact create_item_hash_ok_of_balanced url title t
      (by unfold bracketsUnbalanced; rw [h1, h2]; rfl)
  · have hA := create_item_hash_ok_of_balanced "https://Example.com/Article/"
      "T" none (by decide)
    have hB := create_item_hash_ok_of_balanced "https://example.com/article"
      "T" none (by decide)
    rw [hA, hB]
    show Except.ok (String.mk (sha256hex (utf8Bytes (hashContent
      (parseNoRaise ("https://Example.com/Article/".data)) "T" none)))) = _
    rw [show hashContent (parseNoRaise ("https://Example.com/Article/".data))
        "T" none =
      hashContent (parseNoRaise ("https://example.com/article".data))
        "T" none from by decide]
    rfl

/-- C1 witness: a concrete URL with an ASCII, bracket-free netloc on which
`create_item_hash` succeeds with a 64-character digest. -/
theorem c1_create_item_hash_witness :
    create_item_hash "https://example.com/a" "Title" none =
      Except.ok (itemDigest "https://example.com/a" "Title" none) ∧
    (itemDigest "https://example.com/a" "Title" none).length = 64 := by
  have hb := c1_create_item_hash.2.1 "https://example.com/a" "Title" none
    (by decide)
  exact ⟨hb, (c1_create_item_hash.1 "https://example.com/a" "Title" none
    _ hb).1⟩

/-! ### Feed parsing (`parse_rss_feed`)

The external `feedparser` result is a parameter: either a whole-feed fault
(the outer `try/except`, e.g. network or parse failure) or a list of
entries.  A malformed entry is modeled by its observable effect in the
source — the per-entry `try/except` around the two date parses: an entry
date field is `none` (attribute absent or falsy), `some none` (present but
its parse raises) or `some (some d)`. -/

/-- A feedparser entry as `parse_rss_feed` reads it. -/
structure RawEntry where
  title : Option String
  link : Option String
  published_parsed : Option (Option PyDateTime)
  published : Option (Option PyDateTime)
  summary : Option String
  description : Option String
deriving DecidableEq, Repr

/-- Outcome of `feedparser.parse(url)` with the wrapping `try`. -/
inductive FeedResult where
  | fault (msg : String)
  | entries (es : List RawEntry)

/-- A candidate item (the dict appended to `items`). -/
structure CandidateItem where
  title : String
  url : String
  published_at : Option PyDateTime
  summary : String
  raw : RawEntry
deriving DecidableEq, Repr

/-- The date-resolution chain: `published_parsed` (guarded), elif
`published` (guarded), else `None`. -/
def resolveDate (e : RawEntry) : Option PyDateTime :=
  match e.published_parsed with
  | some r => r
  | none =>
    match e.published with
    | some r => r
    | none => none

/-- `entry.summary`, elif `entry.description`, else `""`. -/
def entrySummary (e : RawEntry) : String :=
  match e.summary with
  | some s => s
  | none =>
    match e.description with
    | some d => d
    | none => ""

/-- One step of `re.sub(r'<[^>]+>', '', s)`: a `<` with a non-empty run of
non-`>` characters up to the next `>` is removed; fuel bounds the
recursion (one unit per character consumed, so `l.length` suffices). -/
def stripTagsGo : Nat → List Char → List Char
  | 0, l => l
  | _ + 1, [] => []
  | fuel + 1, '<' :: t =>
    (match splitAtFirst '>' t with
     | some (inside, rest) =>
       if inside.isEmpty then '<' :: stripTagsGo fuel t
       else stripTagsGo fuel rest
     | none => '<' :: stripTagsGo fuel t)
  | fuel + 1, c :: t => c :: stripTagsGo fuel t

def stripTags (l : List Char) : List Char := stripTagsGo l.length l

/-- `re.sub(r'<[^>]+>', '', summary)[:500]`. -/
def cleanSummary (s : String) : String := String.mk ((stripTags s.data).take 500)

/-- The per-entry body of the `for entry in feed.entries` loop. -/
def entryToItem (e : RawEntry) : CandidateItem :=
  { title := e.title.getD "Untitled"
    url := e.link.getD ""
    published_at := resolveDate e
    summary := cleanSummary (entrySummary e)
    raw := e }

/-- The entry loop, building the item list front to back. -/
def parseEntries : List RawEntry → List CandidateItem
  | [] => []
  | e :: rest => entryToItem e :: parseEntries rest

/-- Embedding of `parse_rss_feed`: a whole-feed fault yields `[]` (logged,
not raised); otherwise every entry is converted. -/
def parse_rss_feed : FeedResult → List CandidateItem
  | .fault _ => []
  | .entries es => parseEntries es

/-! ### Ingestion orchestration (`ingest_source`, `ingest_all_sources`)

The database state carries sources, items (with their ids), detail records
and the id counter.  Ingestion-run records are append-only and never read
back; they are returned alongside the state.  A per-source unhandled
exception (the source's `except` branch, e.g. a queue failure) is modeled
as the behavior returning `.error msg`; it produces a FAILED run and adds
nothing else. -/

inductive SourceType where
  | RSS
  | API
  | MANUAL
deriving DecidableEq, Repr

inductive IngestStatus where
  | RUNNING
  | SUCCESS
  | FAILED
deriving DecidableEq, Repr

structure SourceRec where
  id : Nat
  typ : SourceType
  url : String
  category : Option String
  enabled : Bool
deriving DecidableEq, Repr

structure IngestRunRec where
  source_id : Nat
  status : IngestStatus
  items_added : Nat
  error : Option String
deriving DecidableEq, Repr

structure ItemRec where
  typ : ItemType
  title : String
  company_name : Option String
  url : String
  source_id : Nat
  published_at : Option PyDateTime
  summary : String
  hash : String
deriving DecidableEq, Repr

structure FundingRec where
  item_id : Nat
  round_type : Option String
  amount_usd : Option ℚ
  investors : List String
deriving DecidableEq, Repr

structure CompanyRec where
  item_id : Nat
  one_liner : Option String
deriving DecidableEq, Repr

structure IngestState where
  sources : List SourceRec
  items : List (Nat × ItemRec)
  fundings : List FundingRec
  companies : List CompanyRec
  next_item_id : Nat
deriving DecidableEq, Repr

/-- `summary[:200]`. -/
def truncate200 (s : String) : String := String.mk (s.data.take 200)

/-- One iteration of the item loop of `ingest_source`: skip empty URLs,
dedup by fingerprint, classify, extract, persist the item and its detail
record; returns the new state and the number of items added (0 or 1). -/
def processEntry (src : SourceRec) (st : IngestState) (item : CandidateItem) :
    IngestState × Nat :=
  if item.url = "" then (st, 0)
  else
    if st.items.any fun p => p.2.hash == itemDigest item.url item.title
        item.published_at then (st, 0)
    else
      let item_type := determine_item_type item.title item.summary src.category
      let iid := st.next_item_id
      let st2 : IngestState :=
        { st with
          items := st.items ++
            [(iid,
              { typ := item_type
                title := item.title
                company_name := extract_company_name item.title
                url := item.url
                source_id := src.id
                published_at := item.published_at
                summary := item.summary
                hash := itemDigest item.url item.title item.published_at })]
          next_item_id := iid + 1 }
      if item_type = ItemType.FUNDING then
        ({ st2 with fundings := st2.fundings ++
            [{ item_id := iid
               round_type := (extract_funding_details item.title item.summary).round_type
               amount_usd := (extract_funding_details item.title item.summary).amount_usd
               investors := (extract_funding_details item.title item.summary).investors }] },
          1)
      else
        ({ st2 with companies := st2.companies ++
            [{ item_id := iid
               one_liner := if item.summary = "" then none
                 else some (truncate200 item.summary) }] },
          1)

/-- The item loop. -/
def processEntries (src : SourceRec) (st : IngestState) :
    List CandidateItem → IngestState × Nat
  | [] => (st, 0)
  | it :: rest =>
    let r1 := processEntry src st it
    let r2 := processEntries src r1.1 rest
    (r2.1, r1.2 + r2.2)

/-- The `{'status': ...}` dict returned by `ingest_source`. -/
structure IngestResult where
  status : String
  items_added : Option Nat
  error : Option String
deriving DecidableEq, Repr

/-- Embedding of `ingest_source`: missing/disabled source ⇒ skipped with no
run record; a per-source fault ⇒ FAILED run with the error captured and no
items; otherwise the feed is parsed (RSS only) and processed, SUCCESS run
with the added count. -/
def ingest_source (behavior : Nat → Except String FeedResult)
    (st : IngestState) (source_id : Nat) :
    IngestState × Option IngestRunRec × IngestResult :=
  match st.sources.find? fun s => s.id == source_id with
  | none => (st, none, ⟨"skipped", none, none⟩)
  | some src =>
    if ¬ src.enabled then (st, none, ⟨"skipped", none, none⟩)
    else
      match behavior source_id with
      | .error e =>
        (st, some ⟨source_id, IngestStatus.FAILED, 0, some e⟩,
          ⟨"failed", none, some e⟩)
      | .ok feed =>
        let parsed := if src.typ = SourceType.RSS then parse_rss_feed feed else []
        let r := processEntries src st parsed
        (r.1, some ⟨source_id, IngestStatus.SUCCESS, r.2, none⟩,
          ⟨"success", some r.2, none⟩)

/-- The per-source loop of `ingest_all_sources` over a snapshot of ids. -/
def ingestList (behavior : Nat → Except String FeedResult) :
    IngestState → List Nat → IngestState × List IngestRunRec × List IngestResult
  | st, [] => (st, [], [])
  | st, id :: rest =>
    let r1 := ingest_source behavior st id
    let r2 := ingestList behavior r1.1 rest
    (r2.1, r1.2.1.toList ++ r2.2.1, r1.2.2 :: r2.2.2)

/-- Embedding of `ingest_all_sources`: the enabled sources' ids are
snapshotted, then each is ingested independently. -/
def ingest_all_sources (behavior : Nat → Except String FeedResult)
    (st : IngestState) : IngestState × List IngestRunRec × List IngestResult :=
  ingestList behavior st ((st.sources.filter fun s => s.enabled).map fun s => s.id)

theorem parseEntries_eq_map (es : List RawEntry) :
    parseEntries es = es.map entryToItem := by
  induction es with
  | nil => rfl
  | cons e rest ih => simp [parseEntries, ih]

/-- C9: `parse_rss_feed` is total — a whole-feed fault yields `[]`, never an
exception — and entries are converted independently: splitting the feed
around any entry splits the output likewise, so a malformed entry (its date
fields fail to parse, the only per-entry fallible steps, which the code
guards) still yields its own item with `published_at = none` and leaves
every other entry's item in place; the batch is never aborted or emptied by
one bad entry. -/
theorem c9_parse_rss_feed :
    (∀ msg, parse_rss_feed (.fault msg) = []) ∧
    (∀ pre e post,
      parse_rss_feed (.entries (pre ++ e :: post)) =
        parse_rss_feed (.entries pre) ++
          entryToItem e :: parse_rss_feed (.entries post)) ∧
    (∀ es, (parse_rss_feed (.entries es)).length = es.length) ∧
    (∀ e : RawEntry, e.published_parsed = some none →
      (entryToItem e).published_at = none ∧
      (entryToItem e).title = e.title.getD "Untitled" ∧
      (entryToItem e).url = e.link.getD "") := by
  refine ⟨fun msg => rfl, ?_, ?_, ?_⟩
  · intro pre e post
    show parseEntries _ = parseEntries _ ++ entryToItem e :: parseEntries _
    simp [parseEntries_eq_map]
  · intro es
    show (parseEntries es).length = _
    simp [parseEntries_eq_map]
  · intro e he
    refine ⟨?_, rfl, rfl⟩
    show resolveDate e = none
    unfold resolveDate
    rw [he]

/-- Witness for the C9 theorem: an entry whose structured date is present
but fails to parse still becomes an item, with no publish time and its
title and link intact. -/
theorem c9_parse_rss_feed_witness :
    (entryToItem ⟨some "T", some "u", some none, none, some "s", none⟩).published_at =
      none ∧
    (entryToItem ⟨some "T", some "u", some none, none, some "s", none⟩).title =
      (some "T").getD "Untitled" ∧
    (entryToItem ⟨some "T", some "u", some none, none, some "s", none⟩).url =
      (some "u").getD "" :=
  c9_parse_rss_feed.2.2.2 ⟨some "T", some "u", some none, none, some "s", none⟩ rfl

theorem processEntry_sources (src : SourceRec) (st : IngestState) (it : CandidateItem) :
    ((processEntry src st it).1).sources = st.sources := by
  unfold processEntry
  split
  · rfl
  split
  · rfl
  dsimp only
  split <;> rfl

theorem processEntries_sources (src : SourceRec) :
    ∀ (its : List CandidateItem) (st : IngestState),
    ((processEntries src st its).1).sources = st.sources := by
  intro its
  induction its with
  | nil => intro st; rfl
  | cons it rest ih =>
    intro st
    show ((processEntries src (processEntry src st it).1 rest).1).sources = _
    rw [ih, processEntry_sources]

theorem ingest_source_skip_none (b : Nat → Except String FeedResult)
    (st : IngestState) (id : Nat)
    (h : (st.sources.find? fun s => s.id == id) = none) :
    ingest_source b st id = (st, none, ⟨"skipped", none, none⟩) := by
  unfold ingest_source
  rw [h]

theorem ingest_source_skip_disabled (b : Nat → Except String FeedResult)
    (st : IngestState) (id : Nat) (src : SourceRec)
    (h : (st.sources.find? fun s => s.id == id) = some src)
    (hen : src.enabled = false) :
    ingest_source b st id = (st, none, ⟨"skipped", none, none⟩) := by
  unfold ingest_source
  rw [h]
  dsimp only
  rw [if_pos (by simp [hen])]

theorem ingest_source_error (b : Nat → Except String FeedResult)
    (st : IngestState) (id : Nat) (src : SourceRec) (e : String)
    (h : (st.sources.find? fun s => s.id == id) = some src)
    (hen : src.enabled = true) (hb : b id = .error e) :
    ingest_source b st id =
      (st, some ⟨id, IngestStatus.FAILED, 0, some e⟩, ⟨"failed", none, some e⟩) := by
  unfold ingest_source
  rw [h]
  dsimp only
  rw [if_neg (by simp [hen]), hb]

theorem ingest_source_ok (b : Nat → Except String FeedResult)
    (st : IngestState) (id : Nat) (src : SourceRec) (feed : FeedResult)
    (h : (st.sources.find? fun s => s.id == id) = some src)
    (hen : src.enabled = true) (hb : b id = .ok feed) :
    ingest_source b st id =
      ((processEntries src st
          (if src.typ = SourceType.RSS then parse_rss_feed feed else [])).1,
        some ⟨id, IngestStatus.SUCCESS,
          (processEntries src st
            (if src.typ = SourceType.RSS then parse_rss_feed feed else [])).2, none⟩,
        ⟨"success",
          some (processEntries src st
            (if src.typ = SourceType.RSS then parse_rss_feed feed else [])).2,
          none⟩) := by
  unfold ingest_source
  rw [h]
  dsimp only
  rw [if_neg (by simp [hen]), hb]

theorem ingest_source_sources (b : Nat → Except String FeedResult)
    (st : IngestState) (id : Nat) :
    ((ingest_source b st id).1).sources = st.sources := by
  unfold ingest_source
  split
  · rfl
  · split
    · rfl
    · split
      · rfl
      · exact processEntries_sources _ _ _

/-- The status and error text a source's run will carry, as a function of
the source's behavior alone. -/
def runStatusOf (b : Nat → Except String FeedResult) (id : Nat) :
    IngestStatus × Option String :=
  match b id with
  | .error e => (IngestStatus.FAILED, some e)
  | .ok _ => (IngestStatus.SUCCESS, none)

theorem ingestList_runs_proj (b : Nat → Except String FeedResult) :
    ∀ (ids : List Nat) (st : IngestState),
    (∀ id ∈ ids, ∃ src, (st.sources.find? fun s => s.id == id) = some src ∧
      src.enabled = true) →
    ((ingestList b st ids).2.1).map (fun r => (r.source_id, r.status, r.error)) =
      ids.map (fun id => (id, (runStatusOf b id).1, (runStatusOf b id).2)) := by
  intro ids
  induction ids with
  | nil => intro st h; rfl
  | cons id rest ih =>
    intro st h
    obtain ⟨src, hfind, hen⟩ := h id (by simp)
    show ((ingest_source b st id).2.1.toList ++
      (ingestList b (ingest_source b st id).1 rest).2.1).map _ = _
    cases hb : b id with
    | error e =>
      rw [ingest_source_error b st id src e hfind hen hb]
      show (⟨id, IngestStatus.FAILED, 0, some e⟩ ::
        (ingestList b st rest).2.1).map _ = _
      rw [List.map_cons, ih st fun j hj => h j (by simp [hj])]
      simp [runStatusOf, hb]
    | ok feed =>
      rw [ingest_source_ok b st id src feed hfind hen hb]
      show (⟨id, IngestStatus.SUCCESS, _, none⟩ ::
        (ingestList b _ rest).2.1).map _ = _
      rw [List.map_cons, ih _ ?_]
      · simp [runStatusOf, hb]
      · intro j hj
        rw [processEntries_sources]
        exact h j (by simp [hj])

theorem ingest_source_congr (b b2 : Nat → Except String FeedResult)
    (st : IngestState) (id : Nat) (hb : b id = b2 id) :
    ingest_source b st id = ingest_source b2 st id := by
  unfold ingest_source
  rw [hb]

theorem ingestList_state_congr (b : Nat → Except String FeedResult)
    (k : Nat) (e : String) (hbk : b k = Except.error e) :
    ∀ (ids : List Nat) (st : IngestState),
    (ingestList b st ids).1 =
      (ingestList (fun j => if j = k then Except.ok (FeedResult.entries []) else b j)
        st ids).1 := by
  intro ids
  induction ids with
  | nil => intro st; rfl
  | cons id rest ih =>
    intro st
    show (ingestList b (ingest_source b st id).1 rest).1 =
      (ingestList _ (ingest_source _ st id).1 rest).1
    by_cases hid : id = k
    · subst hid
      cases hfind : st.sources.find? fun s => s.id == id with
      | none =>
        rw [ingest_source_skip_none b st id hfind,
          ingest_source_skip_none _ st id hfind]
        exact ih st
      | some src =>
        by_cases hen : src.enabled = true
        · rw [ingest_source_error b st id src e hfind hen hbk,
            ingest_source_ok _ st id src (FeedResult.entries []) hfind hen (by simp)]
          have hplist : (if src.typ = SourceType.RSS then
              parse_rss_feed (FeedResult.entries []) else []) = ([] : List CandidateItem) := by
            split <;> rfl
          rw [hplist]
          exact ih st
        · have hen2 : src.enabled = false := by
            simpa using hen
          rw [ingest_source_skip_disabled b st id src hfind hen2,
            ingest_source_skip_disabled _ st id src hfind hen2]
          exact ih st
    · rw [← ingest_source_congr b
        (fun j => if j = k then Except.ok (FeedResult.entries []) else b j) st id
        (by simp [hid])]
      exact ih _

/-- C8: one failing source does not disturb the rest.  In a pass over N
(all-enabled, distinct-id) sources where exactly source k's processing
raises (and every other source's does not), the pass completes with N run
records: the one for k FAILED with its error text captured, every other one
SUCCESS, and the final database state (items, detail records, counter) is
exactly what the same pass produces when k instead yields an empty feed —
k's failure has no effect on what the other sources persist.
`ingest_source` itself is a total function: it never propagates a fault. -/
theorem c8_ingest_all_resilience :
    ∀ (b : Nat → Except String FeedResult) (st : IngestState) (k : Nat) (e : String),
    (∀ s ∈ st.sources, s.enabled = true) →
    (st.sources.map fun s => s.id).Nodup →
    k ∈ (st.sources.map fun s => s.id) →
    b k = Except.error e →
    (∀ j, j ≠ k → ∀ msg, b j ≠ Except.error msg) →
    ((ingest_all_sources b st).2.1).length = st.sources.length ∧
    (((ingest_all_sources b st).2.1).filter fun r =>
      r.status == IngestStatus.FAILED).length = 1 ∧
    (((ingest_all_sources b st).2.1).filter fun r =>
      r.status == IngestStatus.SUCCESS).length = st.sources.length - 1 ∧
    (∀ r ∈ (ingest_all_sources b st).2.1,
      r.source_id = k → r.status = IngestStatus.FAILED ∧ r.error = some e) ∧
    (∀ r ∈ (ingest_all_sources b st).2.1,
      r.source_id ≠ k → r.status = IngestStatus.SUCCESS ∧ r.error = none) ∧
    (ingest_all_sources b st).1 =
      (ingest_all_sources
        (fun j => if j = k then Except.ok (FeedResult.entries []) else b j) st).1 := by
  intro b st k e hall hnd hk hbk hok
  have hfilter : st.sources.filter (fun s => s.enabled) = st.sources :=
    List.filter_eq_self.mpr hall
  have hids : (st.sources.filter fun s => s.enabled).map (fun s => s.id) =
      st.sources.map fun s => s.id := by rw [hfilter]
  have hsrc : ∀ id ∈ (st.sources.filter fun s => s.enabled).map (fun s => s.id),
      ∃ src, (st.sources.find? fun s => s.id == id) = some src ∧
        src.enabled = true := by
    intro id hmem
    rw [hids] at hmem
    obtain ⟨s, hs, hsid⟩ := List.mem_map.mp hmem
    have hsome : (st.sources.find? fun s2 => s2.id == id).isSome := by
      rw [List.find?_isSome]
      exact ⟨s, hs, by simp [hsid]⟩
    obtain ⟨src, hfind⟩ := Option.isSome_iff_exists.mp hsome
    exact ⟨src, hfind, hall src (List.mem_of_find?_eq_some hfind)⟩
  have M := ingestList_runs_proj b
    ((st.sources.filter fun s => s.enabled).map (fun s => s.id)) st hsrc
  have hlen : ((ingest_all_sources b st).2.1).length = st.sources.length := by
    have hl := congrArg List.length M
    simp only [List.length_map] at hl
    rw [show ((ingest_all_sources b st).2.1).length =
      ((ingestList b st ((st.sources.filter fun s => s.enabled).map
        (fun s => s.id))).2.1).length from rfl, hl, hfilter]
  have hfact : ∀ r ∈ (ingest_all_sources b st).2.1,
      ∃ id ∈ (st.sources.filter fun s => s.enabled).map (fun s => s.id),
        id = r.source_id ∧ (runStatusOf b id).1 = r.status ∧
        (runStatusOf b id).2 = r.error := by
    intro r hr
    have hmemb : (r.source_id, r.status, r.error) ∈
        ((ingestList b st ((st.sources.filter fun s => s.enabled).map
          (fun s => s.id))).2.1).map fun r2 => (r2.source_id, r2.status, r2.error) :=
      List.mem_map_of_mem _ hr
    rw [M] at hmemb
    obtain ⟨id, hidmem, hg⟩ := List.mem_map.mp hmemb
    refine ⟨id, hidmem, ?_, ?_, ?_⟩
    · exact congrArg (fun t => t.1) hg
    · exact congrArg (fun t => t.2.1) hg
    · exact congrArg (fun t => t.2.2) hg
  have hfactk : ∀ r ∈ (ingest_all_sources b st).2.1,
      r.source_id = k → r.status = IngestStatus.FAILED ∧ r.error = some e := by
    intro r hr hrk
    obtain ⟨id, -, h1, h2, h3⟩ := hfact r hr
    have hidk : id = k := by rw [h1, hrk]
    rw [hidk] at h2 h3
    unfold runStatusOf at h2 h3
    rw [hbk] at h2 h3
    exact ⟨h2.symm, h3.symm⟩
  have hfactnk : ∀ r ∈ (ingest_all_sources b st).2.1,
      r.source_id ≠ k → r.status = IngestStatus.SUCCESS ∧ r.error = none := by
    intro r hr hrk
    obtain ⟨id, -, h1, h2, h3⟩ := hfact r hr
    have hidk : id ≠ k := by rw [h1]; exact hrk
    cases hb2 : b id with
    | error m => exact absurd hb2 (hok id hidk m)
    | ok f =>
      unfold runStatusOf at h2 h3
      rw [hb2] at h2 h3
      exact ⟨h2.symm, h3.symm⟩
  have hcntF : (((ingest_all_sources b st).2.1).filter fun r =>
      r.status == IngestStatus.FAILED).length = 1 := by
    rw [← List.countP_eq_length_filter]
    have h1 : List.countP (fun t => t.2.1 == IngestStatus.FAILED)
        (((ingestList b st ((st.sources.filter fun s => s.enabled).map
          (fun s => s.id))).2.1).map fun r => (r.source_id, r.status, r.error)) =
        List.countP (fun t => t.2.1 == IngestStatus.FAILED)
        (((st.sources.filter fun s => s.enabled).map (fun s => s.id)).map
          fun id => (id, (runStatusOf b id).1, (runStatusOf b id).2)) := by
      rw [M]
    rw [List.countP_map, List.countP_map] at h1
    have h2 : List.countP
        ((fun t => t.2.1 == IngestStatus.FAILED) ∘
          fun id => (id, (runStatusOf b id).1, (runStatusOf b id).2))
        ((st.sources.filter fun s => s.enabled).map (fun s => s.id)) =
        List.countP (fun id => id == k)
        ((st.sources.filter fun s => s.enabled).map (fun s => s.id)) := by
      apply List.countP_congr
      intro id hmem
      by_cases hid : id = k
      · simp [Function.comp, runStatusOf, hid, hbk]
      · cases hb2 : b id with
        | error m => exact absurd hb2 (hok id hid m)
        | ok f => simp [Function.comp, runStatusOf, hb2, hid]
    have h3 : List.countP (fun id => id == k)
        ((st.sources.filter fun s => s.enabled).map (fun s => s.id)) = 1 := by
      rw [← List.count_eq_countP, hids]
      exact List.count_eq_one_of_mem hnd hk
    exact h1.trans (h2.trans h3)
  have hbinary : ∀ r ∈ (ingest_all_sources b st).2.1,
      (r.status == IngestStatus.SUCCESS) = true ↔
        (!(r.status == IngestStatus.FAILED)) = true := by
    intro r hr
    by_cases hrk : r.source_id = k
    · rw [(hfactk r hr hrk).1]; decide
    · rw [(hfactnk r hr hrk).1]; decide
  have hcntS : (((ingest_all_sources b st).2.1).filter fun r =>
      r.status == IngestStatus.SUCCESS).length = st.sources.length - 1 := by
    rw [← List.countP_eq_length_filter]
    rw [List.countP_congr hbinary]
    have htot := List.length_eq_countP_add_countP
      (fun r => r.status == IngestStatus.FAILED) ((ingest_all_sources b st).2.1)
    rw [hlen] at htot
    have htot2 : st.sources.length =
        List.countP (fun r => r.status == IngestStatus.FAILED)
          ((ingest_all_sources b st).2.1) +
        List.countP (fun r => !(r.status == IngestStatus.FAILED))
          ((ingest_all_sources b st).2.1) := by
      simpa only [Bool.not_eq_true, Bool.decide_eq_false] using htot
    have hF : List.countP (fun r => r.status == IngestStatus.FAILED)
        ((ingest_all_sources b st).2.1) = 1 := by
      rw [List.countP_eq_length_filter]
      exact hcntF
    omega
  exact ⟨hlen, hcntF, hcntS, hfactk, hfactnk,
    ingestList_state_congr b k e hbk _ st⟩

/-- Witness for the C8 theorem: two enabled sources, the second one's pass
raising "boom": two run records, exactly one FAILED. -/
theorem c8_ingest_all_resilience_witness :
    ((ingest_all_sources
      (fun j => if j = 2 then Except.error "boom"
        else Except.ok (FeedResult.entries []))
      ⟨[⟨1, SourceType.RSS, "u1", none, true⟩,
        ⟨2, SourceType.RSS, "u2", none, true⟩], [], [], [], 0⟩).2.1).length = 2 ∧
    (((ingest_all_sources
      (fun j => if j = 2 then Except.error "boom"
        else Except.ok (FeedResult.entries []))
      ⟨[⟨1, SourceType.RSS, "u1", none, true⟩,
        ⟨2, SourceType.RSS, "u2", none, true⟩], [], [], [], 0⟩).2.1).filter
          fun r => r.status == IngestStatus.FAILED).length = 1 := by
  have h := c8_ingest_all_resilience
    (fun j => if j = 2 then Except.error "boom"
      else Except.ok (FeedResult.entries []))
    ⟨[⟨1, SourceType.RSS, "u1", none, true⟩,
      ⟨2, SourceType.RSS, "u2", none, true⟩], [], [], [], 0⟩
    2 "boom" (by decide) (by decide) (by decide) rfl
    (fun j hj msg => by simp [hj])
  exact ⟨h.1, h.2.1⟩

theorem processEntry_fundings_all (src : SourceRec) (st : IngestState)
    (it : CandidateItem)
    (h : (st.fundings.all fun f => f.investors.isEmpty) = true) :
    (((processEntry src st it).1).fundings.all fun f => f.investors.isEmpty) = true := by
  unfold processEntry
  split
  · exact h
  split
  · exact h
  dsimp only
  split
  · rw [List.all_append]
    simp only [h, Bool.true_and]
    rfl
  · exact h

theorem processEntries_fundings_all (src : SourceRec) :
    ∀ (its : List CandidateItem) (st : IngestState),
    (st.fundings.all fun f => f.investors.isEmpty) = true →
    (((processEntries src st its).1).fundings.all fun f => f.investors.isEmpty) = true := by
  intro its
  induction its with
  | nil => intro st h; exact h
  | cons it rest ih =>
    intro st h
    show (((processEntries src (processEntry src st it).1 rest).1).fundings.all _) = true
    exact ih _ (processEntry_fundings_all src st it h)

theorem ingest_source_fundings_all (b : Nat → Except String FeedResult)
    (st : IngestState) (id : Nat)
    (h : (st.fundings.all fun f => f.investors.isEmpty) = true) :
    (((ingest_source b st id).1).fundings.all fun f => f.investors.isEmpty) = true := by
  unfold ingest_source
  split
  · exact h
  · split
    · exact h
    · split
      · exact h
      · exact processEntries_fundings_all _ _ _ h

theorem ingestList_fundings_all (b : Nat → Except String FeedResult) :
    ∀ (ids : List Nat) (st : IngestState),
    (st.fundings.all fun f => f.investors.isEmpty) = true →
    (((ingestList b st ids).1).fundings.all fun f => f.investors.isEmpty) = true := by
  intro ids
  induction ids with
  | nil => intro st h; exact h
  | cons id rest ih =>
    intro st h
    show (((ingestList b (ingest_source b st id).1 rest).1).fundings.all _) = true
    exact ih _ (ingest_source_fundings_all b st id h)

/-- C10: `extract_funding_details` never extracts investors — the
`investors` field is always the empty list — and consequently every
funding-detail record ever created by an ingestion pass carries an empty
investor list (a pass preserves the all-empty property of the funding
table). -/
theorem c10_investors_empty :
    (∀ title summary, (extract_funding_details title summary).investors = []) ∧
    (∀ (b : Nat → Except String FeedResult) (st : IngestState),
      (st.fundings.all fun f => f.investors.isEmpty) = true →
      (((ingest_all_sources b st).1).fundings.all fun f => f.investors.isEmpty) = true) := by
  constructor
  · intro title summary
    rfl
  · intro b st h
    exact ingestList_fundings_all b _ st h

/-- Witness for the C10 theorem: a pass over a source whose feed contains a
funding item starting from an empty database keeps the funding table
all-empty-investors. -/
theorem c10_investors_empty_witness :
    (((ingest_all_sources
      (fun _ => Except.ok (FeedResult.entries
        [⟨some "Acme raises $5m seed round", some "http://x/a", none, none,
          some "s", none⟩]))
      ⟨[⟨1, SourceType.RSS, "u1", none, true⟩], [], [], [], 0⟩).1).fundings.all
        fun f => f.investors.isEmpty) = true :=
  c10_investors_empty.2
    (fun _ => Except.ok (FeedResult.entries
      [⟨some "Acme raises $5m seed round", some "http://x/a", none, none,
        some "s", none⟩]))
    ⟨[⟨1, SourceType.RSS, "u1", none, true⟩], [], [], [], 0⟩ rfl

end MenaSignal
